import Mathlib

/-!
Verification of the condor_watch_q core: a shallow embedding of the
job-state tracker, the aggregation pipeline (grouping, rows, totals,
column pruning, row ordering), and the presentation layer (progress bar,
percentage summary), translated from src/condor_watch_q.py.

Python dicts are modelled as insertion-ordered association lists
(`dictSet` overwrites in place, appends fresh keys at the end, exactly
like CPython dict assignment); Python floats are modelled as rationals;
Python `int()` truncation and `round()` banker's rounding are modelled
explicitly.
-/

namespace CondorWatchQ

/-- The JobStatus enum, constructors in Python declaration order
(class JobStatus in src/condor_watch_q.py). -/
inductive JobStatus
  | REMOVED
  | HELD
  | IDLE
  | RUNNING
  | COMPLETED
  | TRANSFERRING_OUTPUT
  | SUSPENDED
deriving DecidableEq, Repr

/-- Iteration order of the Python enum itself: `for js in JobStatus`
iterates members in declaration order. -/
def JobStatus.declOrder : List JobStatus :=
  [.REMOVED, .HELD, .IDLE, .RUNNING, .COMPLETED, .TRANSFERRING_OUTPUT, .SUSPENDED]

/-- JobStatus.ordered classmethod: the fixed display ordering. -/
def JobStatus.ordered : List JobStatus :=
  [.REMOVED, .HELD, .SUSPENDED, .IDLE, .RUNNING, .TRANSFERRING_OUTPUT, .COMPLETED]

/-- ACTIVE_STATES: the statuses meaning "still occupies a queue slot". -/
def ACTIVE_STATES : List JobStatus :=
  [.IDLE, .RUNNING, .TRANSFERRING_OUTPUT, .HELD, .SUSPENDED]

/-- htcondor.JobEventType: the event kinds relevant to the tracker.  The
eleven kinds appearing in JOB_EVENT_STATUS_TRANSITIONS are listed first;
the remaining constructors stand for the other members of the htcondor
enum, none of which appears in the transition dict (the dict lookup uses
a None default, so every kind outside the eleven behaves identically). -/
inductive JobEventType
  | SUBMIT
  | JOB_EVICTED
  | JOB_UNSUSPENDED
  | JOB_RELEASED
  | SHADOW_EXCEPTION
  | JOB_RECONNECT_FAILED
  | JOB_TERMINATED
  | EXECUTE
  | JOB_HELD
  | JOB_SUSPENDED
  | JOB_ABORTED
  | EXECUTABLE_ERROR
  | CHECKPOINTED
  | IMAGE_SIZE
  | GENERIC
  | JOB_DISCONNECTED
  | JOB_RECONNECTED
  | JOB_AD_INFORMATION
  | JOB_STATUS_UNKNOWN
  | JOB_STATUS_KNOWN
  | FILE_TRANSFER
  | NONE
deriving DecidableEq, Repr

/-- JOB_EVENT_STATUS_TRANSITIONS dict: event kind to new status;
kinds outside the dict give None (`.get(event.type, None)`). -/
def JOB_EVENT_STATUS_TRANSITIONS : JobEventType → Option JobStatus
  | .SUBMIT => some .IDLE
  | .JOB_EVICTED => some .IDLE
  | .JOB_UNSUSPENDED => some .IDLE
  | .JOB_RELEASED => some .IDLE
  | .SHADOW_EXCEPTION => some .IDLE
  | .JOB_RECONNECT_FAILED => some .IDLE
  | .JOB_TERMINATED => some .COMPLETED
  | .EXECUTE => some .RUNNING
  | .JOB_HELD => some .HELD
  | .JOB_SUSPENDED => some .SUSPENDED
  | .JOB_ABORTED => some .REMOVED
  | _ => none

/-- The eleven event kinds that carry a status transition. -/
def MAPPED_EVENT_KINDS : List JobEventType :=
  [.SUBMIT, .JOB_EVICTED, .JOB_UNSUSPENDED, .JOB_RELEASED, .SHADOW_EXCEPTION,
   .JOB_RECONNECT_FAILED, .JOB_TERMINATED, .EXECUTE, .JOB_HELD, .JOB_SUSPENDED,
   .JOB_ABORTED]

/-- A typed lifecycle event as consumed by the tracker: the cluster id,
the proc id and the event kind (timestamps play no role in the core). -/
structure LifecycleEvent where
  cluster : Nat
  proc : Nat
  type : JobEventType
deriving DecidableEq, Repr

/-! ### Python dicts as insertion-ordered association lists -/

/-- Python dict assignment d[k] = v: overwrite in place if the key is
present, append at the end otherwise. -/
def dictSet {α β : Type} [DecidableEq α] (k : α) (v : β) : List (α × β) → List (α × β)
  | [] => [(k, v)]
  | (k0, v0) :: rest => if k0 = k then (k, v) :: rest else (k0, v0) :: dictSet k v rest

/-- Python dict lookup d.get(k): the value at the first (hence only)
occurrence of the key. -/
def dictGet {α β : Type} [DecidableEq α] (k : α) : List (α × β) → Option β
  | [] => none
  | (k0, v) :: rest => if k0 = k then some v else dictGet k rest

theorem dictGet_dictSet_self {α β : Type} [DecidableEq α] (k : α) (v : β)
    (l : List (α × β)) : dictGet k (dictSet k v l) = some v := by
  induction l with
  | nil => simp [dictSet, dictGet]
  | cons p rest ih =>
    by_cases h : p.1 = k
    · simp [dictSet, dictGet, h]
    · simpa [dictSet, dictGet, h] using ih

theorem dictGet_dictSet_ne {α β : Type} [DecidableEq α] {k k0 : α} (v : β)
    (l : List (α × β)) (h : k0 ≠ k) : dictGet k0 (dictSet k v l) = dictGet k0 l := by
  have hk : ¬k = k0 := fun hh => h hh.symm
  induction l with
  | nil => simp [dictSet, dictGet, hk]
  | cons p rest ih =>
    by_cases hp : p.1 = k
    · subst hp
      simp [dictSet, dictGet, hk]
    · simp only [dictSet, if_neg hp]
      by_cases hp0 : p.1 = k0
      · simp [dictGet, hp0]
      · simpa [dictGet, hp0] using ih

theorem dictSet_dictSet_self {α β : Type} [DecidableEq α] (k : α) (v : β)
    (l : List (α × β)) : dictSet k v (dictSet k v l) = dictSet k v l := by
  induction l with
  | nil => simp [dictSet]
  | cons p rest ih =>
    by_cases h : p.1 = k
    · simp [dictSet, h]
    · simp [dictSet, h, ih]

/-! ### Cluster and JobStateTracker -/

/-- Cluster: job state for a single cluster.  job_to_state is the
proc-id-to-status dict; batch_name_attr models the `_batch_name`
attribute. -/
structure Cluster where
  cluster_id : Nat
  event_log_path : String
  batch_name_attr : Option String
  job_to_state : List (Nat × JobStatus)
deriving DecidableEq, Repr

/-- The batch_name property: `self._batch_name or "ID: {cluster_id}"`
(Python `or` also replaces an empty string, which is falsy). -/
def Cluster.batch_name (c : Cluster) : String :=
  match c.batch_name_attr with
  | some s => if s = "" then "ID: " ++ toString c.cluster_id else s
  | none => "ID: " ++ toString c.cluster_id

/-- JobStateTracker: batch-name hints from discovery plus the
cluster_id-to-Cluster dict. -/
structure JobStateTracker where
  batch_names : List (Nat × Option String)
  cluster_id_to_cluster : List (Nat × Cluster)
deriving DecidableEq, Repr

/-- A freshly constructed tracker (no events processed yet). -/
def freshTracker (batch_names : List (Nat × Option String)) : JobStateTracker :=
  { batch_names := batch_names, cluster_id_to_cluster := [] }

/-- The body of the event loop in JobStateTracker.process_events for one
event: look up the transition table (ignore the event if its kind is
unmapped), fetch or lazily create the Cluster record (setdefault), and
overwrite the addressed job's status. -/
def processEvent (event_log_path : String) (t : JobStateTracker)
    (e : LifecycleEvent) : JobStateTracker :=
  match JOB_EVENT_STATUS_TRANSITIONS e.type with
  | none => t
  | some new_status =>
    let cluster :=
      match dictGet e.cluster t.cluster_id_to_cluster with
      | some c => c
      | none =>
        { cluster_id := e.cluster
          event_log_path := event_log_path
          batch_name_attr := (dictGet e.cluster t.batch_names).join
          job_to_state := [] }
    let cluster := { cluster with job_to_state := dictSet e.proc new_status cluster.job_to_state }
    { t with cluster_id_to_cluster := dictSet e.cluster cluster t.cluster_id_to_cluster }

/-- Drain one event log (the inner while-loop of process_events). -/
def processLog (t : JobStateTracker) (event_log_path : String)
    (events : List LifecycleEvent) : JobStateTracker :=
  events.foldl (processEvent event_log_path) t

/-- JobStateTracker.process_events: drain every open reader in order. -/
def process_events (t : JobStateTracker)
    (readers : List (String × List LifecycleEvent)) : JobStateTracker :=
  readers.foldl (fun acc r => processLog acc r.1 r.2) t

/-- The clusters accessor: the dict's values in insertion order. -/
def JobStateTracker.clusters (t : JobStateTracker) : List Cluster :=
  t.cluster_id_to_cluster.map (fun p => p.2)

/-- The job_states accessor: every current job status, flattened. -/
def JobStateTracker.job_states (t : JobStateTracker) : List JobStatus :=
  t.clusters.flatMap (fun c => c.job_to_state.map (fun p => p.2))

/-- The status currently recorded for job (cid, pid), if any. -/
def jobStatusOf (t : JobStateTracker) (cid pid : Nat) : Option JobStatus :=
  (dictGet cid t.cluster_id_to_cluster).bind (fun c => dictGet pid c.job_to_state)

/-! ### Rows, cells and grouping (the aggregator) -/

/-- The keys a row dict can carry: the per-status columns, the TOTAL and
JOB_IDS (ACTIVE_JOBS) pseudo-columns, and the three group-key columns
LOG, CLUSTER, BATCH. -/
inductive ColKey
  | status (js : JobStatus)
  | TOTAL
  | ACTIVE_JOBS
  | LOG
  | CLUSTER
  | BATCH
deriving DecidableEq, Repr

/-- A row cell: Python ints for counts, Python strings for the JOB_IDS
excerpt and textual group keys. -/
inductive CellValue
  | int (n : Nat)
  | str (s : String)
deriving DecidableEq, Repr

/-- A row: the Python dict from column key to cell value. -/
abbrev Row := List (ColKey × CellValue)

/-- The selectable grouping attribute (-groupby log / cluster / batch). -/
inductive GroupKey
  | log
  | cluster
  | batch
deriving DecidableEq, Repr

/-- A group-key value: cluster ids are ints, paths and batch names strings. -/
inductive AttrValue
  | str (s : String)
  | nat (n : Nat)
deriving DecidableEq, Repr

/-- operator.attrgetter over the Cluster attribute selected by the group
key (batch_name goes through the fallback property). -/
def getAttr : GroupKey → Cluster → AttrValue
  | .log, c => .str c.event_log_path
  | .cluster, c => .nat c.cluster_id
  | .batch, c => .str c.batch_name

/-- GROUPBY_ATTRIBUTE_TO_AD_KEY: the column key of the active group key. -/
def colKeyOf : GroupKey → ColKey
  | .log => .LOG
  | .cluster => .CLUSTER
  | .batch => .BATCH

/-- Store a group-key value into a row cell. -/
def cellOfAttr : AttrValue → CellValue
  | .str s => .str s
  | .nat n => .int n

/-- The dict comprehension `\x7bjs: 0 for js in JobStatus\x7d`: every status
key initialised to 0, in enum declaration order. -/
def rowInit : Row := JobStatus.declOrder.map (fun js => (ColKey.status js, CellValue.int 0))

/-- Add one to an int cell (`row_data[job_state] += 1` acts on counts;
the str branch is never reached, status cells are always ints). -/
def cellAdd1 : CellValue → CellValue
  | .int n => .int (n + 1)
  | .str s => .str s

/-- In-place increment of the cell at key k (the key is always present
when this models `row_data[job_state] += 1`). -/
def rowIncr (k : ColKey) (r : Row) : Row :=
  r.map (fun p => if p.1 = k then (p.1, cellAdd1 p.2) else p)

/-- One iteration of the inner loop of row_data_from_job_state: count
the job's status and, when active, record its "<cluster>.<proc>" id. -/
def collectJob (cluster : Cluster) (acc : Row × List String)
    (pj : Nat × JobStatus) : Row × List String :=
  let acc1 := (rowIncr (ColKey.status pj.2) acc.1, acc.2)
  if pj.2 ∈ ACTIVE_STATES then
    (acc1.1, acc1.2 ++ [toString cluster.cluster_id ++ "." ++ toString pj.1])
  else acc1

/-- The double loop of row_data_from_job_state over clusters and jobs. -/
def collectRow (clusters : List Cluster) : Row × List String :=
  clusters.foldl (fun acc cluster => cluster.job_to_state.foldl (collectJob cluster) acc)
    (rowInit, [])

/-- sum(row_data.values()) at the point it is taken: every value is an
int (TOTAL and JOB_IDS are not yet in the dict). -/
def sumIntCells (r : Row) : Nat :=
  (r.map (fun p => match p.2 with | .int n => n | .str _ => 0)).sum

/-- Python str.split(".") on the character list: split at every dot,
keeping empty pieces. -/
def splitCharsOnDot : List Char → List String
  | [] => [""]
  | c :: rest =>
    if c = '.' then "" :: splitCharsOnDot rest
    else
      match splitCharsOnDot rest with
      | [] => [String.mk [c]]
      | h :: t => String.mk (c :: h.data) :: t

/-- jobid.split("."): the sort key used for active job ids. -/
def pySplitDot (s : String) : List String := splitCharsOnDot s.data

/-- The sort key as comparable data: each piece as its code-point list;
Python compares lists of strings lexicographically, strings by code
point. -/
def pyKey (s : String) : List (List Nat) :=
  (pySplitDot s).map (fun t => t.data.map Char.toNat)

/-- The ordering active_job_ids.sort(key=...) sorts by. -/
def keyOrder : String → String → Prop := fun a b => pyKey a ≤ pyKey b

instance : DecidableRel keyOrder :=
  fun a b => inferInstanceAs (Decidable (pyKey a ≤ pyKey b))

instance : IsTotal String keyOrder :=
  ⟨fun a b => le_total (pyKey a) (pyKey b)⟩

instance : IsTrans String keyOrder :=
  ⟨fun _ _ _ => le_trans⟩

/-- active_job_ids.sort(key=lambda jobid: jobid.split(".")): a stable
ascending sort by the split key. -/
def pySortJobIds (ids : List String) : List String := List.insertionSort keyOrder ids

/-- The tail of row_data_from_job_state: collapse to "first ... last"
when more than two ids exist, else join with ", ". -/
def joinActive (ids : List String) : CellValue :=
  if ids.length > 2 then
    .str (String.intercalate " ... " [ids.headD "", ids.getLastD ""])
  else
    .str (String.intercalate ", " ids)

/-- row_data_from_job_state: per-status counts, their sum as TOTAL, and
the sorted/collapsed JOB_IDS excerpt. -/
def row_data_from_job_state (clusters : List Cluster) : Row :=
  let rd := collectRow clusters
  let row_data := dictSet ColKey.TOTAL (CellValue.int (sumIntCells rd.1)) rd.1
  dictSet ColKey.ACTIVE_JOBS (joinActive (pySortJobIds rd.2)) row_data

/-- Append a cluster to its group (defaultdict(list) indexing followed by
list append, preserving first-seen group order). -/
def addToGroup (groups : List (AttrValue × List Cluster)) (k : AttrValue)
    (c : Cluster) : List (AttrValue × List Cluster) :=
  match groups with
  | [] => [(k, [c])]
  | (k0, l) :: rest =>
    if k0 = k then (k0, l ++ [c]) :: rest else (k0, l) :: addToGroup rest k c

/-- group_clusters_by_key: partition the clusters by the selected
attribute value. -/
def group_clusters_by_key (clusters : List Cluster) (key : GroupKey) :
    List (AttrValue × List Cluster) :=
  clusters.foldl (fun gs c => addToGroup gs (getAttr key c) c) []

/-- The running totals dict: per-status counts plus the TOTAL entry. -/
structure Totals where
  counts : JobStatus → Nat
  total : Nat

/-- Read an int cell (the keys read here are always present as ints). -/
def rowGetInt (k : ColKey) (r : Row) : Nat :=
  match dictGet k r with
  | some (.int n) => n
  | _ => 0

/-- One iteration of the totals accumulation in make_rows_from_groups. -/
def addRowToTotals (tot : Totals) (rd : Row) : Totals :=
  { total := tot.total + rowGetInt ColKey.TOTAL rd
    counts := fun js => tot.counts js + rowGetInt (ColKey.status js) rd }

/-- The defaultdict(int) the totals start from. -/
def emptyTotals : Totals := { counts := fun _ => 0, total := 0 }

/-- make_rows_from_groups: one row per group plus the running totals.
The display-only nice_path rewriting of LOG cells is filesystem
dependent and outside the tracked state; the group-key cell stored here
is the raw attribute value. -/
def make_rows_from_groups (groups : List (AttrValue × List Cluster)) (key : GroupKey) :
    List (AttrValue × Row) × Totals :=
  groups.foldl
    (fun acc g =>
      let row_data := row_data_from_job_state g.2
      let tot := addRowToTotals acc.2 row_data
      let row_data := dictSet (colKeyOf key) (cellOfAttr g.1) row_data
      (acc.1 ++ [(g.1, row_data)], tot))
    ([], emptyTotals)

/-- HEADERS: the prunable columns, in display order. -/
def HEADERS : List ColKey :=
  JobStatus.ordered.map ColKey.status ++ [ColKey.TOTAL, ColKey.ACTIVE_JOBS]

/-- ALWAYS_INCLUDE: columns never pruned. -/
def ALWAYS_INCLUDE : List ColKey :=
  [.status .IDLE, .status .RUNNING, .status .COMPLETED, .LOG, .TOTAL]

/-- Python `row[h] == 0`: true for the int cell 0; a string (even the
empty one) never compares equal to 0. -/
def cellEqZeroPy : CellValue → Bool
  | .int n => n == 0
  | .str _ => false

/-- Whether the cell at column h of this row compares equal to 0 (the
column is always present in rows fed to strip_empty_columns). -/
def rowCellIsZero (h : ColKey) (r : Row) : Bool :=
  match dictGet h r with
  | some v => cellEqZeroPy v
  | none => false

/-- strip_empty_columns: drop every HEADERS column whose cell compares
equal to 0 in every row, except the ALWAYS_INCLUDE columns; pop the
dropped columns from each row. -/
def strip_empty_columns (rows_by_key : List (AttrValue × Row)) :
    List ColKey × List (AttrValue × Row) :=
  let dont_include :=
    (HEADERS.filter (fun h => rows_by_key.all (fun p => rowCellIsZero h p.2))).filter
      (fun h => decide (h ∉ ALWAYS_INCLUDE))
  let headers := HEADERS.filter (fun h => decide (h ∉ dont_include))
  let rows := rows_by_key.map
    (fun p => (p.1, p.2.filter (fun cell => decide (cell.1 ∉ dont_include))))
  (headers, rows)

/-- min(cluster.cluster_id for cluster in group): Python min raises on
an empty group, which never occurs; 0 stands in for that case. -/
def minClusterId (clusters : List Cluster) : Nat :=
  match (clusters.map Cluster.cluster_id).min? with
  | some m => m
  | none => 0

/-- The ordering the final `sorted(rows_by_key.items(), key=...)` call
sorts rows by: the minimum cluster id present in the row's group. -/
def rowOrder (g1 g2 : AttrValue × List Cluster) : Prop :=
  minClusterId g1.2 ≤ minClusterId g2.2

instance : DecidableRel rowOrder :=
  fun g1 g2 => inferInstanceAs (Decidable (minClusterId g1.2 ≤ minClusterId g2.2))

instance : IsTotal (AttrValue × List Cluster) rowOrder :=
  ⟨fun g1 g2 => le_total (minClusterId g1.2) (minClusterId g2.2)⟩

instance : IsTrans (AttrValue × List Cluster) rowOrder :=
  ⟨fun _ _ _ => le_trans⟩

/-- The final row ordering: rows_by_key carries one entry per group, so
sorting the grouped clusters by minimum cluster id is the row sort. -/
def sort_rows_by_min_cluster (groups : List (AttrValue × List Cluster)) :
    List (AttrValue × List Cluster) :=
  List.insertionSort rowOrder groups

/-! ### Progress bar -/

/-- A Python float value, modelled as the exact fraction num / den.
Every denominator built by this development is positive (it is 1 or a
nonzero job total or a product of such), so no sign normalisation is
needed. -/
structure PyFloat where
  num : Int
  den : Int
deriving DecidableEq, Repr

/-- float(n) for a Python int n. -/
def PyFloat.ofNat (n : Nat) : PyFloat := ⟨n, 1⟩

/-- Exact product of two float values. -/
def PyFloat.mul (a b : PyFloat) : PyFloat := ⟨a.num * b.num, a.den * b.den⟩

/-- safe_divide: Python falsy test on numerator and denominator, else
the true division n / (dnum/dden) = n*dden / dnum (the int default 0 is
the float value 0/1). -/
def safe_divide (numerator : Nat) (denominator : PyFloat) : PyFloat :=
  if numerator = 0 ∨ denominator.num = 0 then ⟨0, 1⟩
  else ⟨(numerator : Int) * denominator.den, denominator.num⟩

/-- Python int() on a float: truncation toward zero. -/
def pyInt (q : PyFloat) : Int :=
  Int.tdiv q.num q.den

/-- PROGRESS_BAR_ORDER: fixed segment priority order. -/
def PROGRESS_BAR_ORDER : List JobStatus :=
  [.COMPLETED, .RUNNING, .IDLE, .HELD, .SUSPENDED, .REMOVED]

/-- argmax: index of the first element carrying the maximum value
(Python max keeps the earliest maximal element). -/
def argmax (l : List Int) : Nat :=
  match l.enum with
  | [] => 0
  | p :: rest => (rest.foldl (fun best q => if best.2 < q.2 then q else best) p).1

/-- The bar_section_lengths computation of make_progress_bar: truncate
width times each fraction, then give all rounded-off space to the first
largest section. -/
def make_progress_bar_section_lengths (totals : Totals) (width : Int) : List Int :=
  let w : Int := min width 79 - 2
  let num_total : PyFloat := PyFloat.ofNat totals.total
  let fractions : List PyFloat :=
    PROGRESS_BAR_ORDER.map (fun js => safe_divide (totals.counts js) num_total)
  let ls : List Int := fractions.map (fun f => pyInt (PyFloat.mul ⟨w, 1⟩ f))
  ls.set (argmax ls) (ls.getD (argmax ls) 0 + (w - ls.sum))

/-- The glyph of PROGRESS_BAR_CHARS_AND_COLORS per status.  The dict has
no TRANSFERRING_OUTPUT entry and that status is never zipped against a
section, so the value here is arbitrary. -/
def progressGlyph : JobStatus → String
  | .COMPLETED => "#"
  | .RUNNING => "="
  | .IDLE => "-"
  | .HELD => "!"
  | .SUSPENDED => "!"
  | .REMOVED => "!"
  | .TRANSFERRING_OUTPUT => ""

/-- Python string repetition: a negative count yields the empty string. -/
def repeatStr (s : String) (n : Int) : String :=
  String.join (List.replicate n.toNat s)

/-- make_progress_bar with color off: the bracketed bar text. -/
def make_progress_bar (totals : Totals) (width : Int) : String :=
  "[" ++
    String.join
      ((PROGRESS_BAR_ORDER.zip (make_progress_bar_section_lengths totals width)).map
        (fun p => repeatStr (progressGlyph p.1) p.2)) ++
  "]"

/-! ### Percentage summary line -/

/-- SUMMARY_STATES: ordering of the summary message. -/
def SUMMARY_STATES : List JobStatus :=
  [.COMPLETED, .REMOVED, .IDLE, .RUNNING, .HELD, .SUSPENDED]

/-- SUMMARY_MESSAGES, aligned with SUMMARY_STATES. -/
def SUMMARY_MESSAGES : List String :=
  ["completed", "removed", "idle", "running", "held", "suspended"]

/-- Python round() to an int: round half to even.  With fl the floor of
num/den and r the fractional part, compare 2*r*den against den (the
denominators in use are positive). -/
def pyRound (q : PyFloat) : Int :=
  let fl := Int.fdiv q.num q.den
  let rem2 := 2 * (q.num - fl * q.den)
  if rem2 < q.den then fl
  else if q.den < rem2 then fl + 1
  else if fl % 2 = 0 then fl else fl + 1

/-- The rounded integer percentages of make_summary_with_percentages
(num_total here is the int totals[TOTAL]; int/int division still yields
the exact quotient). -/
def summaryPercentages (totals : Totals) : List Int :=
  SUMMARY_STATES.map
    (fun s => pyRound (PyFloat.mul ⟨100, 1⟩ (safe_divide (totals.counts s) (PyFloat.ofNat totals.total))))

/-- The full-label percentages summary string. -/
def make_summary_with_percentages_full (totals : Totals) : String :=
  "Total: " ++ toString totals.total ++ " jobs; " ++
    String.intercalate ", "
      (((summaryPercentages totals).zip SUMMARY_MESSAGES).map
        (fun p => toString p.1 ++ "% " ++ p.2))

/-- msg[0].upper(): the first letter of a label, uppercased. -/
def firstLetterUpper (msg : String) : String :=
  String.mk ((msg.data.take 1).map Char.toUpper)

/-- The degraded summary using single-letter status labels. -/
def make_summary_with_percentages_short (totals : Totals) : String :=
  "Total: " ++ toString totals.total ++ " jobs; " ++
    String.intercalate ", "
      (((summaryPercentages totals).zip SUMMARY_MESSAGES).map
        (fun p => toString p.1 ++ "% " ++ firstLetterUpper p.2))

/-- make_summary_with_percentages: the source guards the degradation
with `len(summary[0]) > width`, the length of the FIRST CHARACTER of the
summary string (modelled by taking one character), not the length of the
summary. -/
def make_summary_with_percentages (totals : Totals) (width : Option Int) : String :=
  let summary := make_summary_with_percentages_full totals
  match width with
  | none => summary
  | some w =>
    if ((String.mk (summary.data.take 1)).length : Int) > w then
      make_summary_with_percentages_short totals
    else summary

/-! ### Exit evaluation and process exit codes -/

/-- EXIT_GROUPERS keys: all, any, none. -/
inductive ExitGrouper
  | all
  | any
  | none
deriving DecidableEq, Repr

/-- EXIT_GROUPERS values: all(), any(), lambda not any(). -/
def EXIT_GROUPERS : ExitGrouper → List Bool → Bool
  | .all, l => l.all id
  | .any, l => l.any id
  | .none, l => !(l.any id)

/-- EXIT_JOB_STATUS_CHECK keys: active, done, idle, held. -/
inductive ExitStatusCheck
  | active
  | done
  | idle
  | held
deriving DecidableEq, Repr

/-- EXIT_JOB_STATUS_CHECK values: the per-status predicates. -/
def EXIT_JOB_STATUS_CHECK : ExitStatusCheck → JobStatus → Bool
  | .active, s => decide (s ∈ ACTIVE_STATES)
  | .done, s => s == .COMPLETED
  | .idle, s => s == .IDLE
  | .held, s => s == .HELD

/-- One exit condition: grouper, status predicate, user exit code. -/
abbrev ExitCondition := ExitGrouper × ExitStatusCheck × Int

/-- grouper(checker(s) for s in tracker.job_states). -/
def exitConditionSatisfied (states : List JobStatus) (chk : ExitCondition) : Bool :=
  EXIT_GROUPERS chk.1 (states.map (EXIT_JOB_STATUS_CHECK chk.2.1))

/-- The per-tick exit loop: sys.exit with the code of the first
satisfied condition, none when no condition fires. -/
def first_satisfied_exit (checks : List ExitCondition) (states : List JobStatus) : Option Int :=
  match checks with
  | [] => Option.none
  | chk :: rest =>
    if exitConditionSatisfied states chk then some chk.2.2
    else first_satisfied_exit rest states

/-- What the poll loop observes on one iteration: the current flattened
job statuses, a manual interrupt, or an unhandled internal error. -/
inductive LoopEvent
  | tick (states : List JobStatus)
  | interrupt
  | internalError
deriving DecidableEq, Repr

/-- The watch_q poll loop's exit code over a trace of iterations:
sys.exit(exit_status) on the first satisfied condition during a tick,
sys.exit(0) on KeyboardInterrupt, exit code 1 via the cli handler for an
unhandled exception; none while still running. -/
def watch_q_loop_exit (checks : List ExitCondition) : List LoopEvent → Option Int
  | [] => Option.none
  | .tick states :: rest =>
    match first_satisfied_exit checks states with
    | some c => some c
    | Option.none => watch_q_loop_exit checks rest
  | .interrupt :: _ => some 0
  | .internalError :: _ => some 1

/-- The process exit code of watch_q: sys.exit(0) up front when no event
log sources were resolved, otherwise whatever the poll loop produces. -/
def watch_q_exit_code (no_sources : Bool) (checks : List ExitCondition)
    (trace : List LoopEvent) : Option Int :=
  if no_sources then some 0 else watch_q_loop_exit checks trace

/-! ### Helper lemmas -/

theorem foldl_choice_mem {γ : Type} (f : γ → γ → γ)
    (hf : ∀ a b, f a b = a ∨ f a b = b) :
    ∀ (rest : List γ) (p : γ), rest.foldl f p ∈ p :: rest := by
  intro rest
  induction rest with
  | nil => intro p; simp
  | cons q rest ih =>
    intro p
    have h1 : (q :: rest).foldl f p = rest.foldl f (f p q) := by simp
    rw [h1]
    rcases List.mem_cons.mp (ih (f p q)) with hm | hm
    · rcases hf p q with h | h
      · rw [hm, h]; exact List.mem_cons_self _ _
      · rw [hm, h]; exact List.mem_cons_of_mem _ (List.mem_cons_self _ _)
    · exact List.mem_cons_of_mem _ (List.mem_cons_of_mem _ hm)

theorem argmax_lt_length (l : List Int) (h : l ≠ []) : argmax l < l.length := by
  unfold argmax
  cases henum : l.enum with
  | nil =>
    exfalso
    have hlen := congrArg List.length henum
    simp only [List.enum_length, List.length_nil] at hlen
    exact h (List.eq_nil_of_length_eq_zero hlen)
  | cons p rest =>
    have hchoice : ∀ a b : Nat × Int,
        (if a.2 < b.2 then b else a) = a ∨ (if a.2 < b.2 then b else a) = b := by
      intro a b
      by_cases hab : a.2 < b.2
      · right; simp [hab]
      · left; simp [hab]
    have hmem := foldl_choice_mem (fun best q => if best.2 < q.2 then q else best)
      hchoice rest p
    have hmem2 : rest.foldl (fun best q => if best.2 < q.2 then q else best) p ∈ l.enum := by
      rw [henum]; exact hmem
    set r := rest.foldl (fun best q => if best.2 < q.2 then q else best) p with hr
    have hpair : (r.1, r.2) ∈ l.enum := by simpa using hmem2
    exact (List.mem_enum hpair).1

theorem sum_set_add (d : Int) :
    ∀ (l : List Int) (i : Nat), i < l.length →
      (l.set i (l.getD i 0 + d)).sum = l.sum + d := by
  intro l
  induction l with
  | nil => intro i h; simp at h
  | cons a as ih =>
    intro i h
    cases i with
    | zero =>
      simp only [List.getD_cons_zero, List.set]
      simp [List.sum_cons]
      ring
    | succ n =>
      simp only [List.getD_cons_succ, List.set, List.sum_cons]
      have hn : n < as.length := by simpa using h
      rw [ih n hn]
      ring

/-! ### Claims C2, C9, C3 -/

/-- C2: every event consumed by process_events moves the addressed job
to exactly the status given by the fixed transition table (the eleven
listed mappings), and an event of any other kind leaves the tracker,
hence every job's status and the set of clusters, unchanged. -/
theorem transition_table_exact (event_log_path : String) (t : JobStateTracker)
    (e : LifecycleEvent) :
    (JOB_EVENT_STATUS_TRANSITIONS .SUBMIT = some .IDLE ∧
     JOB_EVENT_STATUS_TRANSITIONS .JOB_EVICTED = some .IDLE ∧
     JOB_EVENT_STATUS_TRANSITIONS .JOB_UNSUSPENDED = some .IDLE ∧
     JOB_EVENT_STATUS_TRANSITIONS .JOB_RELEASED = some .IDLE ∧
     JOB_EVENT_STATUS_TRANSITIONS .SHADOW_EXCEPTION = some .IDLE ∧
     JOB_EVENT_STATUS_TRANSITIONS .JOB_RECONNECT_FAILED = some .IDLE ∧
     JOB_EVENT_STATUS_TRANSITIONS .EXECUTE = some .RUNNING ∧
     JOB_EVENT_STATUS_TRANSITIONS .JOB_HELD = some .HELD ∧
     JOB_EVENT_STATUS_TRANSITIONS .JOB_SUSPENDED = some .SUSPENDED ∧
     JOB_EVENT_STATUS_TRANSITIONS .JOB_TERMINATED = some .COMPLETED ∧
     JOB_EVENT_STATUS_TRANSITIONS .JOB_ABORTED = some .REMOVED) ∧
    (∀ k : JobEventType, k ∉ MAPPED_EVENT_KINDS →
      JOB_EVENT_STATUS_TRANSITIONS k = Option.none) ∧
    (∀ st : JobStatus, JOB_EVENT_STATUS_TRANSITIONS e.type = some st →
      jobStatusOf (processEvent event_log_path t e) e.cluster e.proc = some st) ∧
    (JOB_EVENT_STATUS_TRANSITIONS e.type = Option.none →
      processEvent event_log_path t e = t) := by
  refine ⟨⟨rfl, rfl, rfl, rfl, rfl, rfl, rfl, rfl, rfl, rfl, rfl⟩, ?_, ?_, ?_⟩
  · intro k hk
    cases k <;> first
      | rfl
      | (exfalso; exact hk (by simp [MAPPED_EVENT_KINDS]))
  · intro st hst
    unfold processEvent
    rw [hst]
    unfold jobStatusOf
    simp only [dictGet_dictSet_self, Option.bind_some]
    exact dictGet_dictSet_self _ _ _
  · intro hnone
    unfold processEvent
    rw [hnone]

/-- C2 witness: concrete instance of the hypotheses. -/
theorem transition_table_exact_witness :
    jobStatusOf
      (processEvent "job.log" (freshTracker [])
        { cluster := 1, proc := 0, type := .EXECUTE }) 1 0 = some .RUNNING ∧
    processEvent "job.log" (freshTracker [])
      { cluster := 1, proc := 0, type := .IMAGE_SIZE } = freshTracker [] :=
  ⟨(transition_table_exact "job.log" (freshTracker [])
      { cluster := 1, proc := 0, type := .EXECUTE }).2.2.1 .RUNNING rfl,
   (transition_table_exact "job.log" (freshTracker [])
      { cluster := 1, proc := 0, type := .IMAGE_SIZE }).2.2.2 rfl⟩

/-- C9: applying the same status-mapped event twice is idempotent; the
whole tracker state after the second application equals the state after
one application. -/
theorem terminal_event_idempotent (event_log_path : String) (t : JobStateTracker)
    (e : LifecycleEvent) (st : JobStatus)
    (h : JOB_EVENT_STATUS_TRANSITIONS e.type = some st) :
    processEvent event_log_path (processEvent event_log_path t e) e
      = processEvent event_log_path t e := by
  conv_lhs => rw [processEvent]
  rw [h]
  conv_rhs => rw [processEvent]
  rw [h]
  simp only [processEvent, h, dictGet_dictSet_self, dictSet_dictSet_self]

/-- C9 witness. -/
theorem terminal_event_idempotent_witness :
    processEvent "job.log"
      (processEvent "job.log" (freshTracker [])
        { cluster := 3, proc := 1, type := .JOB_TERMINATED })
      { cluster := 3, proc := 1, type := .JOB_TERMINATED }
    = processEvent "job.log" (freshTracker [])
        { cluster := 3, proc := 1, type := .JOB_TERMINATED } :=
  terminal_event_idempotent "job.log" (freshTracker [])
    { cluster := 3, proc := 1, type := .JOB_TERMINATED } .COMPLETED rfl

theorem adjust_sum (w : Int) (ls : List Int) (h : ls ≠ []) :
    (ls.set (argmax ls) (ls.getD (argmax ls) 0 + (w - ls.sum))).sum = w := by
  rw [sum_set_add (w - ls.sum) ls (argmax ls) (argmax_lt_length ls h)]
  ring

/-- C3: for every Totals mapping and requested width, the progress-bar
section lengths sum exactly to the effective width, the requested width
capped at 79 minus 2 for the brackets. -/
theorem progress_bar_sections_sum (totals : Totals) (width : Int) :
    (make_progress_bar_section_lengths totals width).sum = min width 79 - 2 := by
  unfold make_progress_bar_section_lengths
  exact adjust_sum _ _ (by simp [PROGRESS_BAR_ORDER])

/-! ### Claim C8 -/

theorem first_satisfied_exit_spec (checks : List ExitCondition) (states : List JobStatus)
    (c : Int) (h : first_satisfied_exit checks states = some c) :
    ∃ i : Fin checks.length, exitConditionSatisfied states (checks.get i) = true ∧
      c = (checks.get i).2.2 ∧
      ∀ j : Fin checks.length, (j : Nat) < (i : Nat) →
        exitConditionSatisfied states (checks.get j) = false := by
  induction checks with
  | nil => simp [first_satisfied_exit] at h
  | cons chk rest ih =>
    cases hsat : exitConditionSatisfied states chk with
    | true =>
      refine ⟨⟨0, by simp⟩, by simpa using hsat, ?_, ?_⟩
      · unfold first_satisfied_exit at h
        rw [if_pos (by simp [hsat])] at h
        simpa using (Option.some.inj h).symm
      · intro j hj
        simp at hj
    | false =>
      unfold first_satisfied_exit at h
      rw [if_neg (by simp [hsat])] at h
      obtain ⟨i, hi1, hi2, hi3⟩ := ih h
      refine ⟨⟨i.1 + 1, by simp [Nat.succ_lt_succ i.2]⟩, ?_, ?_, ?_⟩
      · simpa using hi1
      · simpa using hi2
      · intro j hj
        match j with
        | ⟨0, h0⟩ => simpa using hsat
        | ⟨n + 1, hn⟩ =>
          have hn2 : n < rest.length := by simpa using hn
          have := hi3 ⟨n, hn2⟩ (by simpa using hj)
          simpa using this

/-- C8: the process exit code is 0 when no event-log sources are
resolved at startup or on manual interrupt, is the user-specified
integer of the first satisfied exit condition when one matches during a
tick, and is 1 on an unhandled internal error. -/
theorem process_exit_codes (checks : List ExitCondition) (trace rest : List LoopEvent)
    (states : List JobStatus) (c : Int)
    (hfire : first_satisfied_exit checks states = some c) :
    watch_q_exit_code true checks trace = some 0 ∧
    watch_q_exit_code false checks (LoopEvent.interrupt :: rest) = some 0 ∧
    watch_q_exit_code false checks (LoopEvent.internalError :: rest) = some 1 ∧
    watch_q_exit_code false checks (LoopEvent.tick states :: rest) = some c ∧
    ∃ i : Fin checks.length, exitConditionSatisfied states (checks.get i) = true ∧
      c = (checks.get i).2.2 ∧
      ∀ j : Fin checks.length, (j : Nat) < (i : Nat) →
        exitConditionSatisfied states (checks.get j) = false := by
  refine ⟨rfl, rfl, rfl, ?_, first_satisfied_exit_spec checks states c hfire⟩
  simp [watch_q_exit_code, watch_q_loop_exit, hfire]

/-- C8 witness: the held-job scenario with exit condition any,held,1. -/
theorem process_exit_codes_witness :
    watch_q_exit_code false [(ExitGrouper.any, ExitStatusCheck.held, 1)]
      [LoopEvent.tick [.IDLE, .RUNNING, .HELD]] = some 1 ∧
    watch_q_exit_code true [(ExitGrouper.any, ExitStatusCheck.held, 1)] [] = some 0 :=
  ⟨(process_exit_codes [(ExitGrouper.any, ExitStatusCheck.held, 1)] [] []
      [.IDLE, .RUNNING, .HELD] 1 (by decide)).2.2.2.1,
   (process_exit_codes [(ExitGrouper.any, ExitStatusCheck.held, 1)] [] []
      [.IDLE, .RUNNING, .HELD] 1 (by decide)).1⟩

/-! ### Claim C7 -/

/-- A Totals mapping with one job in each of the six summary states. -/
def totalsSixEach : Totals :=
  { counts := fun js => match js with | .TRANSFERRING_OUTPUT => 0 | _ => 1
    total := 6 }

/-- C7 evaluated at the failing input: at terminal width 40 the
full-label percentages summary is 89 characters wide, yet
make_summary_with_percentages still returns it un-degraded, because the
source compares `len(summary[0])` — the length of the first character,
always 1 — against the width instead of `len(summary)`. -/
theorem percentages_summary_no_degrade_bug :
    make_summary_with_percentages totalsSixEach (some 40)
      = make_summary_with_percentages_full totalsSixEach ∧
    ((make_summary_with_percentages_full totalsSixEach).length : Int) > 40 ∧
    make_summary_with_percentages totalsSixEach (some 40)
      ≠ make_summary_with_percentages_short totalsSixEach := by
  refine ⟨by decide, by decide, by decide⟩

/-! ### Splitting collectRow into its row and id components -/

/-- The row component of one collectJob step. -/
def rowFoldJob (r : Row) (pj : Nat × JobStatus) : Row :=
  rowIncr (ColKey.status pj.2) r

/-- The active-id component of one collectJob step. -/
def idsFoldJob (c : Cluster) (ids : List String) (pj : Nat × JobStatus) : List String :=
  if pj.2 ∈ ACTIVE_STATES then
    ids ++ [toString c.cluster_id ++ "." ++ toString pj.1]
  else ids

theorem collectJob_eq (c : Cluster) (acc : Row × List String) (pj : Nat × JobStatus) :
    collectJob c acc pj = (rowFoldJob acc.1 pj, idsFoldJob c acc.2 pj) := by
  unfold collectJob rowFoldJob idsFoldJob
  by_cases h : pj.2 ∈ ACTIVE_STATES <;> simp [h]

theorem foldl_pair_split {γ A B : Type} (f : A → γ → A) (g : B → γ → B) :
    ∀ (l : List γ) (a : A) (b : B),
      l.foldl (fun p x => (f p.1 x, g p.2 x)) (a, b) = (l.foldl f a, l.foldl g b) := by
  intro l
  induction l with
  | nil => intro a b; simp
  | cons x xs ih => intro a b; simp [ih]

theorem foldl_collectJob (c : Cluster) (jobs : List (Nat × JobStatus)) (a : Row)
    (b : List String) :
    jobs.foldl (collectJob c) (a, b)
      = (jobs.foldl rowFoldJob a, jobs.foldl (idsFoldJob c) b) := by
  have hfun : collectJob c = fun p x => (rowFoldJob p.1 x, idsFoldJob c p.2 x) := by
    funext p x
    exact collectJob_eq c p x
  rw [hfun]
  exact foldl_pair_split _ _ jobs a b

/-- The row component of the whole double loop. -/
def rowCountsFold (clusters : List Cluster) (r0 : Row) : Row :=
  clusters.foldl (fun r c => c.job_to_state.foldl rowFoldJob r) r0

/-- The id component of the whole double loop. -/
def activeIdsFold (clusters : List Cluster) (ids0 : List String) : List String :=
  clusters.foldl (fun ids c => c.job_to_state.foldl (idsFoldJob c) ids) ids0

theorem collectRow_eq (clusters : List Cluster) :
    collectRow clusters = (rowCountsFold clusters rowInit, activeIdsFold clusters []) := by
  unfold collectRow rowCountsFold activeIdsFold
  suffices h : ∀ (a : Row) (b : List String),
      clusters.foldl (fun acc c => c.job_to_state.foldl (collectJob c) acc) (a, b)
        = (clusters.foldl (fun r c => c.job_to_state.foldl rowFoldJob r) a,
           clusters.foldl (fun ids c => c.job_to_state.foldl (idsFoldJob c) ids) b) by
    exact h rowInit []
  induction clusters with
  | nil => intro a b; simp
  | cons c cs ih =>
    intro a b
    simp only [List.foldl_cons]
    rw [foldl_collectJob]
    exact ih _ _

/-- The active ids the loop collects: one "<cluster>.<proc>" entry per
job whose status is in ACTIVE_STATES, in traversal order. -/
def activeIdsOf (clusters : List Cluster) : List String :=
  clusters.flatMap (fun c =>
    (c.job_to_state.filter (fun pj => decide (pj.2 ∈ ACTIVE_STATES))).map
      (fun pj => toString c.cluster_id ++ "." ++ toString pj.1))

theorem idsFold_inner (c : Cluster) :
    ∀ (jobs : List (Nat × JobStatus)) (acc : List String),
      jobs.foldl (idsFoldJob c) acc
        = acc ++ (jobs.filter (fun pj => decide (pj.2 ∈ ACTIVE_STATES))).map
            (fun pj => toString c.cluster_id ++ "." ++ toString pj.1) := by
  intro jobs
  induction jobs with
  | nil => intro acc; simp
  | cons pj rest ih =>
    intro acc
    by_cases h : pj.2 ∈ ACTIVE_STATES
    · simp [idsFoldJob, h, ih, List.filter_cons]
    · simp [idsFoldJob, h, ih, List.filter_cons]

theorem activeIdsFold_eq (clusters : List Cluster) :
    ∀ acc : List String, activeIdsFold clusters acc = acc ++ activeIdsOf clusters := by
  unfold activeIdsFold activeIdsOf
  induction clusters with
  | nil => intro acc; simp
  | cons c cs ih =>
    intro acc
    simp only [List.foldl_cons, List.flatMap_cons]
    rw [idsFold_inner, ih, List.append_assoc]

theorem collectRow_snd (clusters : List Cluster) :
    (collectRow clusters).2 = activeIdsOf clusters := by
  rw [collectRow_eq]
  simpa using activeIdsFold_eq clusters []

theorem rowdata_active_jobs (clusters : List Cluster) :
    dictGet ColKey.ACTIVE_JOBS (row_data_from_job_state clusters)
      = some (joinActive (pySortJobIds (activeIdsOf clusters))) := by
  unfold row_data_from_job_state
  rw [dictGet_dictSet_self, collectRow_snd]

/-! ### Claim C4 -/

/-- Two clusters, ids 2 and 10, one idle job each: the code's string
sort puts "10.0" before "2.0". -/
def cexClusters : List Cluster :=
  [{ cluster_id := 2, event_log_path := "job.log", batch_name_attr := Option.none,
     job_to_state := [(0, .IDLE)] },
   { cluster_id := 10, event_log_path := "job.log", batch_name_attr := Option.none,
     job_to_state := [(0, .IDLE)] }]

/-- Ascending numeric (cluster id, proc id) order on job-id pairs. -/
def numericPairOrder : Nat × Nat → Nat × Nat → Prop :=
  fun a b => a.1 < b.1 ∨ (a.1 = b.1 ∧ a.2 ≤ b.2)

instance : DecidableRel numericPairOrder :=
  fun a b => inferInstanceAs (Decidable (a.1 < b.1 ∨ (a.1 = b.1 ∧ a.2 ≤ b.2)))

/-- Modelled from the spec words of C4 for comparison: collect the
(cluster id, proc id) pairs of the active jobs, sort them in ascending
numeric order, format as "<cluster>.<proc>", and collapse/join. -/
def activeJobsNumericSpec (clusters : List Cluster) : CellValue :=
  let pairs := clusters.flatMap (fun c =>
    (c.job_to_state.filter (fun pj => decide (pj.2 ∈ ACTIVE_STATES))).map
      (fun pj => (c.cluster_id, pj.1)))
  let sorted := List.insertionSort numericPairOrder pairs
  joinActive (sorted.map (fun p => toString p.1 ++ "." ++ toString p.2))

/-- C4 counterexample: with active jobs 2.0 and 10.0 the code produces
"10.0, 2.0" (string sort on the split components), not the numeric
ascending "2.0, 10.0" the claim states. -/
theorem active_jobs_numeric_sort_counterexample :
    dictGet ColKey.ACTIVE_JOBS (row_data_from_job_state cexClusters)
      = some (CellValue.str "10.0, 2.0") ∧
    activeJobsNumericSpec cexClusters = CellValue.str "2.0, 10.0" ∧
    dictGet ColKey.ACTIVE_JOBS (row_data_from_job_state cexClusters)
      ≠ some (activeJobsNumericSpec cexClusters) := by
  refine ⟨by decide, by decide, by decide⟩

/-- C4 amended: the ACTIVE_JOBS display value collects one
"<cluster>.<proc>" identifier per job whose status is in ACTIVE_STATES,
sorts them in ascending lexicographic order of the string pair obtained
by splitting each identifier at the dot (Python list-of-strings
comparison, which agrees with numeric order only for ids of equal digit
count), and then collapses to "<first> ... <last>" when more than two
identifiers exist, else joins all with ", ". -/
theorem active_jobs_lexicographic (clusters : List Cluster) :
    (collectRow clusters).2 = activeIdsOf clusters ∧
    List.Sorted keyOrder (pySortJobIds (activeIdsOf clusters)) ∧
    (pySortJobIds (activeIdsOf clusters)).Perm (activeIdsOf clusters) ∧
    dictGet ColKey.ACTIVE_JOBS (row_data_from_job_state clusters)
      = some (joinActive (pySortJobIds (activeIdsOf clusters))) ∧
    (∀ ids : List String, 2 < ids.length →
      joinActive ids = CellValue.str (ids.headD "" ++ " ... " ++ ids.getLastD "")) ∧
    (∀ ids : List String, ids.length ≤ 2 →
      joinActive ids = CellValue.str (String.intercalate ", " ids)) := by
  refine ⟨collectRow_snd clusters, List.sorted_insertionSort keyOrder _,
    List.perm_insertionSort keyOrder _, rowdata_active_jobs clusters, ?_, ?_⟩
  · intro ids hlen
    unfold joinActive
    rw [if_pos hlen]
    simp [String.intercalate, String.intercalate.go]
  · intro ids hlen
    unfold joinActive
    rw [if_neg (by omega)]

/-- C4 amended witness. -/
theorem active_jobs_lexicographic_witness :
    (pySortJobIds (activeIdsOf cexClusters)).Perm (activeIdsOf cexClusters) ∧
    joinActive ["1.0", "1.5", "2.3"] = CellValue.str ("1.0" ++ " ... " ++ "2.3") ∧
    joinActive ["1.0", "1.5"] = CellValue.str (String.intercalate ", " ["1.0", "1.5"]) :=
  ⟨(active_jobs_lexicographic cexClusters).2.2.1,
   (active_jobs_lexicographic cexClusters).2.2.2.2.1 ["1.0", "1.5", "2.3"] (by decide),
   (active_jobs_lexicographic cexClusters).2.2.2.2.2 ["1.0", "1.5"] (by decide)⟩

/-! ### Counting: the row of a group in normal form -/

/-- Jobs in this status across the given clusters. -/
def countStatus (js : JobStatus) (clusters : List Cluster) : Nat :=
  (clusters.map (fun c => (c.job_to_state.filter (fun pj => decide (pj.2 = js))).length)).sum

/-- All jobs across the given clusters. -/
def numJobs (clusters : List Cluster) : Nat :=
  (clusters.map (fun c => c.job_to_state.length)).sum

/-- A status-count row holding f js at each status key. -/
def rowOfCounts (f : JobStatus → Nat) : Row :=
  JobStatus.declOrder.map (fun js => (ColKey.status js, CellValue.int (f js)))

/-- Sum of a per-status quantity over all seven statuses. -/
def sumCounts (f : JobStatus → Nat) : Nat :=
  (JobStatus.declOrder.map f).sum

theorem rowInit_eq : rowInit = rowOfCounts (fun _ => 0) := rfl

theorem rowOfCounts_congr {f g : JobStatus → Nat} (h : ∀ js, f js = g js) :
    rowOfCounts f = rowOfCounts g := by
  unfold rowOfCounts
  exact List.map_congr_left (fun js _ => by rw [h js])

theorem rowIncr_rowOfCounts (f : JobStatus → Nat) (js : JobStatus) :
    rowIncr (ColKey.status js) (rowOfCounts f)
      = rowOfCounts (fun j => if j = js then f j + 1 else f j) := by
  cases js <;>
    simp [rowIncr, rowOfCounts, JobStatus.declOrder, cellAdd1]

theorem rowFoldJob_counts :
    ∀ (jobs : List (Nat × JobStatus)) (f : JobStatus → Nat),
      jobs.foldl rowFoldJob (rowOfCounts f)
        = rowOfCounts
            (fun j => f j + (jobs.filter (fun pj => decide (pj.2 = j))).length) := by
  intro jobs
  induction jobs with
  | nil =>
    intro f
    simp only [List.foldl_nil, List.filter_nil, List.length_nil]
    exact (rowOfCounts_congr (fun js => by omega)).symm
  | cons pj rest ih =>
    intro f
    simp only [List.foldl_cons, rowFoldJob, rowIncr_rowOfCounts, ih]
    refine rowOfCounts_congr (fun js => ?_)
    by_cases h : pj.2 = js
    · simp [List.filter_cons, h]
      omega
    · have h2 : ¬js = pj.2 := fun hh => h hh.symm
      simp [List.filter_cons, h, h2]

theorem rowCountsFold_counts (clusters : List Cluster) :
    ∀ f : JobStatus → Nat,
      rowCountsFold clusters (rowOfCounts f)
        = rowOfCounts (fun j => f j + countStatus j clusters) := by
  induction clusters with
  | nil =>
    intro f
    simp only [rowCountsFold, List.foldl_nil]
    exact (rowOfCounts_congr (fun js => by simp [countStatus])).symm
  | cons c cs ih =>
    intro f
    simp only [rowCountsFold, List.foldl_cons] at *
    rw [rowFoldJob_counts, ih]
    refine rowOfCounts_congr (fun js => ?_)
    simp [countStatus]
    omega

theorem collectRow_fst (clusters : List Cluster) :
    (collectRow clusters).1 = rowOfCounts (fun j => countStatus j clusters) := by
  rw [collectRow_eq]
  show rowCountsFold clusters rowInit = _
  rw [rowInit_eq, rowCountsFold_counts]
  exact rowOfCounts_congr (fun js => by omega)

theorem dictGet_rowOfCounts (f : JobStatus → Nat) (js : JobStatus) :
    dictGet (ColKey.status js) (rowOfCounts f) = some (CellValue.int (f js)) := by
  cases js <;> rfl

theorem dictGet_rowOfCounts_total (f : JobStatus → Nat) :
    dictGet ColKey.TOTAL (rowOfCounts f) = Option.none := by
  rfl

theorem sumIntCells_rowOfCounts (f : JobStatus → Nat) :
    sumIntCells (rowOfCounts f) = sumCounts f := by
  rfl

/-- Each job contributes to exactly one status count. -/
theorem sumCounts_filter_length (l : List (Nat × JobStatus)) :
    sumCounts (fun j => (l.filter (fun pj => decide (pj.2 = j))).length) = l.length := by
  induction l with
  | nil => simp [sumCounts, JobStatus.declOrder]
  | cons pj rest ih =>
    have hsplit : ∀ j : JobStatus,
        ((pj :: rest).filter (fun q => decide (q.2 = j))).length
          = (if pj.2 = j then 1 else 0) + (rest.filter (fun q => decide (q.2 = j))).length := by
      intro j
      by_cases h : pj.2 = j
      · simp [List.filter_cons, h]
        omega
      · simp [List.filter_cons, h]
    simp only [sumCounts, List.map_congr_left (fun j _ => hsplit j)] at *
    have hone : ((JobStatus.declOrder.map (fun j => if pj.2 = j then 1 else 0)).sum : Nat) = 1 := by
      cases pj.2 <;> simp [JobStatus.declOrder]
    simp only [JobStatus.declOrder, List.map_cons, List.map_nil, List.sum_cons,
      List.sum_nil, List.length_cons] at *
    cases pj2h : pj.2 <;> rw [pj2h] at * <;> simp at * <;> omega

theorem sumCounts_countStatus (clusters : List Cluster) :
    sumCounts (fun j => countStatus j clusters) = numJobs clusters := by
  induction clusters with
  | nil => simp [sumCounts, countStatus, numJobs, JobStatus.declOrder]
  | cons c cs ih =>
    have hsplit : ∀ j : JobStatus,
        countStatus j (c :: cs)
          = (c.job_to_state.filter (fun pj => decide (pj.2 = j))).length + countStatus j cs := by
      intro j
      simp [countStatus]
    have hadd : ∀ f g : JobStatus → Nat, sumCounts (fun j => f j + g j) = sumCounts f + sumCounts g := by
      intro f g
      simp [sumCounts, JobStatus.declOrder]
      omega
    calc sumCounts (fun j => countStatus j (c :: cs))
        = sumCounts (fun j =>
            (c.job_to_state.filter (fun pj => decide (pj.2 = j))).length + countStatus j cs) := by
          exact congrArg _ (funext hsplit)
      _ = sumCounts (fun j => (c.job_to_state.filter (fun pj => decide (pj.2 = j))).length)
            + sumCounts (fun j => countStatus j cs) := hadd _ _
      _ = c.job_to_state.length + numJobs cs := by rw [sumCounts_filter_length, ih]
      _ = numJobs (c :: cs) := by simp [numJobs]

/-! ### Lookups into row_data_from_job_state -/

theorem rowdata_status_lookup (clusters : List Cluster) (js : JobStatus) :
    dictGet (ColKey.status js) (row_data_from_job_state clusters)
      = some (CellValue.int (countStatus js clusters)) := by
  unfold row_data_from_job_state
  rw [dictGet_dictSet_ne _ _ (by simp), dictGet_dictSet_ne _ _ (by simp),
    collectRow_fst, dictGet_rowOfCounts]

theorem rowdata_total_lookup (clusters : List Cluster) :
    dictGet ColKey.TOTAL (row_data_from_job_state clusters)
      = some (CellValue.int (numJobs clusters)) := by
  unfold row_data_from_job_state
  rw [dictGet_dictSet_ne _ _ (by simp), dictGet_dictSet_self, collectRow_fst,
    sumIntCells_rowOfCounts, sumCounts_countStatus]

/-! ### Splitting make_rows_from_groups into rows and totals -/

/-- The rows component: one row per group, the group-key cell added. -/
def rowsOfGroups (groups : List (AttrValue × List Cluster)) (key : GroupKey) :
    List (AttrValue × Row) :=
  groups.map (fun g => (g.1, dictSet (colKeyOf key) (cellOfAttr g.1) (row_data_from_job_state g.2)))

/-- The totals component. -/
def totalsOfGroups (groups : List (AttrValue × List Cluster)) : Totals :=
  groups.foldl (fun tot g => addRowToTotals tot (row_data_from_job_state g.2)) emptyTotals

theorem foldl_append_singleton {α β : Type} (F : α → β) :
    ∀ (l : List α) (acc : List β),
      l.foldl (fun rows g => rows ++ [F g]) acc = acc ++ l.map F := by
  intro l
  induction l with
  | nil => intro acc; simp
  | cons x xs ih => intro acc; simp [ih]

theorem make_rows_from_groups_eq (groups : List (AttrValue × List Cluster)) (key : GroupKey) :
    make_rows_from_groups groups key = (rowsOfGroups groups key, totalsOfGroups groups) := by
  unfold make_rows_from_groups rowsOfGroups totalsOfGroups
  have hsplit := foldl_pair_split
    (fun rows (g : AttrValue × List Cluster) =>
      rows ++ [(g.1, dictSet (colKeyOf key) (cellOfAttr g.1) (row_data_from_job_state g.2))])
    (fun tot g => addRowToTotals tot (row_data_from_job_state g.2))
    groups [] emptyTotals
  rw [hsplit, foldl_append_singleton]
  simp

theorem rowGetInt_total (clusters : List Cluster) :
    rowGetInt ColKey.TOTAL (row_data_from_job_state clusters) = numJobs clusters := by
  unfold rowGetInt
  rw [rowdata_total_lookup]

theorem rowGetInt_status (clusters : List Cluster) (js : JobStatus) :
    rowGetInt (ColKey.status js) (row_data_from_job_state clusters)
      = countStatus js clusters := by
  unfold rowGetInt
  rw [rowdata_status_lookup]

theorem totalsOfGroups_total (groups : List (AttrValue × List Cluster)) :
    (totalsOfGroups groups).total = (groups.map (fun g => numJobs g.2)).sum := by
  unfold totalsOfGroups
  suffices h : ∀ t0 : Totals,
      (groups.foldl (fun tot g => addRowToTotals tot (row_data_from_job_state g.2)) t0).total
        = t0.total + (groups.map (fun g => numJobs g.2)).sum by
    simpa [emptyTotals] using h emptyTotals
  induction groups with
  | nil => intro t0; simp
  | cons g gs ih =>
    intro t0
    simp only [List.foldl_cons, List.map_cons, List.sum_cons]
    rw [ih]
    simp [addRowToTotals, rowGetInt_total]
    omega

theorem totalsOfGroups_counts (groups : List (AttrValue × List Cluster)) (js : JobStatus) :
    (totalsOfGroups groups).counts js = (groups.map (fun g => countStatus js g.2)).sum := by
  unfold totalsOfGroups
  suffices h : ∀ t0 : Totals,
      ((groups.foldl (fun tot g => addRowToTotals tot (row_data_from_job_state g.2)) t0).counts js)
        = t0.counts js + (groups.map (fun g => countStatus js g.2)).sum by
    simpa [emptyTotals] using h emptyTotals
  induction groups with
  | nil => intro t0; simp
  | cons g gs ih =>
    intro t0
    simp only [List.foldl_cons, List.map_cons, List.sum_cons]
    rw [ih]
    simp [addRowToTotals, rowGetInt_status]
    omega

/-! ### Lookups into the row of a group -/

theorem colKeyOf_ne_status (key : GroupKey) (js : JobStatus) :
    ColKey.status js ≠ colKeyOf key := by
  cases key <;> simp [colKeyOf]

theorem colKeyOf_ne_total (key : GroupKey) : ColKey.TOTAL ≠ colKeyOf key := by
  cases key <;> simp [colKeyOf]

theorem colKeyOf_ne_active_jobs (key : GroupKey) : ColKey.ACTIVE_JOBS ≠ colKeyOf key := by
  cases key <;> simp [colKeyOf]

theorem groupRow_status (g : AttrValue × List Cluster) (key : GroupKey) (js : JobStatus) :
    dictGet (ColKey.status js)
        (dictSet (colKeyOf key) (cellOfAttr g.1) (row_data_from_job_state g.2))
      = some (CellValue.int (countStatus js g.2)) := by
  rw [dictGet_dictSet_ne _ _ (colKeyOf_ne_status key js), rowdata_status_lookup]

theorem groupRow_total (g : AttrValue × List Cluster) (key : GroupKey) :
    dictGet ColKey.TOTAL
        (dictSet (colKeyOf key) (cellOfAttr g.1) (row_data_from_job_state g.2))
      = some (CellValue.int (numJobs g.2)) := by
  rw [dictGet_dictSet_ne _ _ (colKeyOf_ne_total key), rowdata_total_lookup]

theorem groupRow_active_jobs (g : AttrValue × List Cluster) (key : GroupKey) :
    dictGet ColKey.ACTIVE_JOBS
        (dictSet (colKeyOf key) (cellOfAttr g.1) (row_data_from_job_state g.2))
      = some (joinActive (pySortJobIds (activeIdsOf g.2))) := by
  rw [dictGet_dictSet_ne _ _ (colKeyOf_ne_active_jobs key), rowdata_active_jobs]

theorem groupRow_key (g : AttrValue × List Cluster) (key : GroupKey) :
    dictGet (colKeyOf key)
        (dictSet (colKeyOf key) (cellOfAttr g.1) (row_data_from_job_state g.2))
      = some (cellOfAttr g.1) :=
  dictGet_dictSet_self _ _ _

theorem joinActive_is_str (ids : List String) : ∃ s : String, joinActive ids = CellValue.str s := by
  unfold joinActive
  by_cases h : ids.length > 2
  · exact ⟨_, if_pos h⟩
  · exact ⟨_, if_neg h⟩

/-! ### strip_empty_columns characterisation -/

/-- The dont_include set computed inside strip_empty_columns. -/
def dont_include_of (rows_by_key : List (AttrValue × Row)) : List ColKey :=
  (HEADERS.filter (fun h => rows_by_key.all (fun p => rowCellIsZero h p.2))).filter
    (fun h => decide (h ∉ ALWAYS_INCLUDE))

theorem strip_empty_columns_eq (rows_by_key : List (AttrValue × Row)) :
    strip_empty_columns rows_by_key
      = (HEADERS.filter (fun h => decide (h ∉ dont_include_of rows_by_key)),
         rows_by_key.map (fun p =>
           (p.1, p.2.filter (fun cell => decide (cell.1 ∉ dont_include_of rows_by_key))))) :=
  rfl

theorem mem_dont_include_iff (rows_by_key : List (AttrValue × Row)) (h : ColKey) :
    h ∈ dont_include_of rows_by_key
      ↔ h ∈ HEADERS ∧ (∀ p ∈ rows_by_key, rowCellIsZero h p.2 = true) ∧ h ∉ ALWAYS_INCLUDE := by
  constructor
  · intro hmem
    have h1 := List.mem_filter.mp hmem
    have h2 := List.mem_filter.mp h1.1
    refine ⟨h2.1, ?_, by simpa using h1.2⟩
    intro p hp
    exact List.all_eq_true.mp h2.2 p hp
  · intro hin
    refine List.mem_filter.mpr ⟨List.mem_filter.mpr ⟨hin.1, ?_⟩, by simpa using hin.2.2⟩
    exact List.all_eq_true.mpr hin.2.1

theorem mem_stripped_headers_iff (rows_by_key : List (AttrValue × Row)) (h : ColKey) :
    h ∈ (strip_empty_columns rows_by_key).1
      ↔ h ∈ HEADERS ∧ h ∉ dont_include_of rows_by_key := by
  rw [strip_empty_columns_eq]
  simp [List.mem_filter]

theorem dictGet_filter_keep (k : ColKey) (excl : List ColKey) (hk : k ∉ excl) :
    ∀ l : Row, dictGet k (l.filter (fun cell => decide (cell.1 ∉ excl))) = dictGet k l := by
  intro l
  induction l with
  | nil => simp
  | cons cell rest ih =>
    by_cases hc : cell.1 ∈ excl
    · have hne : cell.1 ≠ k := fun hh => hk (hh ▸ hc)
      rw [List.filter_cons, if_neg (by simpa using hc)]
      rw [ih]
      match cell with
      | (k0, v) => simp only [dictGet, if_neg (by simpa using hne)]
    · rw [List.filter_cons, if_pos (by simpa using hc)]
      match cell with
      | (k0, v) =>
        by_cases hk0 : k0 = k
        · simp [dictGet, hk0]
        · simp only [dictGet, if_neg hk0]
          exact ih

theorem HEADERS_status_mem (js : JobStatus) : ColKey.status js ∈ HEADERS := by
  cases js <;> decide

theorem colKeyOf_not_mem_HEADERS (key : GroupKey) : colKeyOf key ∉ HEADERS := by
  cases key <;> decide

theorem rowCellIsZero_status (g : AttrValue × List Cluster) (key : GroupKey) (js : JobStatus) :
    rowCellIsZero (ColKey.status js)
        (dictSet (colKeyOf key) (cellOfAttr g.1) (row_data_from_job_state g.2))
      = decide (countStatus js g.2 = 0) := by
  unfold rowCellIsZero
  rw [groupRow_status]
  by_cases h : countStatus js g.2 = 0 <;> simp [h, cellEqZeroPy]

theorem groupRow_headers_present (g : AttrValue × List Cluster) (key : GroupKey)
    (h : ColKey) (hh : h ∈ HEADERS) :
    (dictGet h (dictSet (colKeyOf key) (cellOfAttr g.1) (row_data_from_job_state g.2))).isSome
      = true := by
  cases h with
  | status js => rw [groupRow_status]; rfl
  | TOTAL => rw [groupRow_total]; rfl
  | ACTIVE_JOBS => rw [groupRow_active_jobs]; rfl
  | LOG => exact absurd hh (by decide)
  | CLUSTER => exact absurd hh (by decide)
  | BATCH => exact absurd hh (by decide)

/-! ### Claim C6 -/

/-- C6: a status column is omitted by strip_empty_columns exactly when
its count is zero in every group and it is outside ALWAYS_INCLUDE;
ALWAYS_INCLUDE members of HEADERS are always kept; every kept column has
a cell in every surviving row; and the group-key column (absent from
HEADERS, hence never prunable) keeps its cell in every surviving row. -/
theorem status_columns_pruned_iff (groups : List (AttrValue × List Cluster))
    (key : GroupKey) (_hne : groups ≠ []) :
    (∀ js : JobStatus,
      (ColKey.status js ∉ (strip_empty_columns (make_rows_from_groups groups key).1).1
        ↔ (∀ g ∈ groups, countStatus js g.2 = 0) ∧ ColKey.status js ∉ ALWAYS_INCLUDE)) ∧
    (∀ h ∈ ALWAYS_INCLUDE, h ∈ HEADERS →
      h ∈ (strip_empty_columns (make_rows_from_groups groups key).1).1) ∧
    (∀ h ∈ (strip_empty_columns (make_rows_from_groups groups key).1).1,
      ∀ p ∈ (strip_empty_columns (make_rows_from_groups groups key).1).2,
        (dictGet h p.2).isSome = true) ∧
    (∀ p ∈ (strip_empty_columns (make_rows_from_groups groups key).1).2,
      (dictGet (colKeyOf key) p.2).isSome = true) := by
  rw [make_rows_from_groups_eq]
  have hzero : ∀ js : JobStatus,
      ((∀ p ∈ rowsOfGroups groups key, rowCellIsZero (ColKey.status js) p.2 = true)
        ↔ (∀ g ∈ groups, countStatus js g.2 = 0)) := by
    intro js
    constructor
    · intro hall g hg
      have hz := hall (g.1, dictSet (colKeyOf key) (cellOfAttr g.1)
        (row_data_from_job_state g.2)) (List.mem_map.mpr ⟨g, hg, rfl⟩)
      rw [rowCellIsZero_status] at hz
      simpa using hz
    · intro hc p hp
      obtain ⟨g, hg, rfl⟩ := List.mem_map.mp hp
      rw [rowCellIsZero_status]
      simpa using hc g hg
  refine ⟨?_, ?_, ?_, ?_⟩
  · intro js
    have hmemiff : ColKey.status js ∈ (strip_empty_columns (rowsOfGroups groups key)).1
        ↔ (ColKey.status js ∈ HEADERS ∧
           ColKey.status js ∉ dont_include_of (rowsOfGroups groups key)) :=
      mem_stripped_headers_iff _ _
    have hdiiff := mem_dont_include_iff (rowsOfGroups groups key) (ColKey.status js)
    constructor
    · intro hnot
      have hdi : ColKey.status js ∈ dont_include_of (rowsOfGroups groups key) := by
        by_contra hnd
        exact hnot (hmemiff.mpr ⟨HEADERS_status_mem js, hnd⟩)
      obtain ⟨-, hall, hAI⟩ := hdiiff.mp hdi
      exact ⟨(hzero js).mp hall, hAI⟩
    · intro hcond hmem
      obtain ⟨-, hnd⟩ := hmemiff.mp hmem
      exact hnd (hdiiff.mpr ⟨HEADERS_status_mem js, (hzero js).mpr hcond.1, hcond.2⟩)
  · intro h hAI hH
    refine (mem_stripped_headers_iff (rowsOfGroups groups key) h).mpr ⟨hH, fun hdi => ?_⟩
    exact ((mem_dont_include_iff _ _).mp hdi).2.2 hAI
  · intro h hh p hp
    have hh2 := (mem_stripped_headers_iff (rowsOfGroups groups key) h).mp hh
    have hp2 : p ∈ (rowsOfGroups groups key).map (fun q =>
        (q.1, q.2.filter
          (fun cell => decide (cell.1 ∉ dont_include_of (rowsOfGroups groups key))))) := hp
    obtain ⟨p0, hp0, rfl⟩ := List.mem_map.mp hp2
    obtain ⟨g, hg, rfl⟩ := List.mem_map.mp hp0
    rw [dictGet_filter_keep h _ hh2.2]
    exact groupRow_headers_present g key h hh2.1
  · intro p hp
    have hp2 : p ∈ (rowsOfGroups groups key).map (fun q =>
        (q.1, q.2.filter
          (fun cell => decide (cell.1 ∉ dont_include_of (rowsOfGroups groups key))))) := hp
    obtain ⟨p0, hp0, rfl⟩ := List.mem_map.mp hp2
    obtain ⟨g, hg, rfl⟩ := List.mem_map.mp hp0
    have hnot : colKeyOf key ∉ dont_include_of (rowsOfGroups groups key) := by
      intro hdi
      exact colKeyOf_not_mem_HEADERS key ((mem_dont_include_iff _ _).mp hdi).1
    rw [dictGet_filter_keep _ _ hnot, groupRow_key]
    rfl

/-- A concrete one-group collection used by the witnesses. -/
def witnessGroups : List (AttrValue × List Cluster) := [(AttrValue.str "b", cexClusters)]

/-- C6 witness: with only idle jobs, HELD is pruned and IDLE kept. -/
theorem status_columns_pruned_iff_witness :
    ColKey.status .HELD ∉ (strip_empty_columns (make_rows_from_groups witnessGroups .batch).1).1 ∧
    ColKey.status .IDLE ∈ (strip_empty_columns (make_rows_from_groups witnessGroups .batch).1).1 :=
  ⟨((status_columns_pruned_iff witnessGroups .batch (by decide)).1 .HELD).mpr
      ⟨by decide, by decide⟩,
   (status_columns_pruned_iff witnessGroups .batch (by decide)).2.1
      (ColKey.status .IDLE) (by decide) (by decide)⟩

/-! ### Claim C10 -/

/-- C10: for any nonempty group collection the JOB_IDS column survives
strip_empty_columns — its cell is a string and a string never compares
equal to 0 — while on an empty row collection every non-ALWAYS_INCLUDE
column, JOB_IDS included, is pruned. -/
theorem job_ids_column_pruning (groups : List (AttrValue × List Cluster)) (key : GroupKey) :
    (groups ≠ [] →
      ColKey.ACTIVE_JOBS ∈ (strip_empty_columns (make_rows_from_groups groups key).1).1) ∧
    strip_empty_columns ([] : List (AttrValue × Row))
      = ([ColKey.status .IDLE, ColKey.status .RUNNING, ColKey.status .COMPLETED,
          ColKey.TOTAL], ([] : List (AttrValue × Row))) ∧
    (∀ clusters : List Cluster, ∃ s : String,
      dictGet ColKey.ACTIVE_JOBS (row_data_from_job_state clusters)
        = some (CellValue.str s)) := by
  refine ⟨?_, by decide, ?_⟩
  · intro hne
    rw [make_rows_from_groups_eq, mem_stripped_headers_iff]
    refine ⟨by decide, fun hdi => ?_⟩
    obtain ⟨g0, gs, rfl⟩ := List.exists_cons_of_ne_nil hne
    have hall := ((mem_dont_include_iff _ _).mp hdi).2.1
    have hz := hall (g0.1, dictSet (colKeyOf key) (cellOfAttr g0.1)
      (row_data_from_job_state g0.2)) (by
        unfold rowsOfGroups
        exact List.mem_map.mpr ⟨g0, List.mem_cons_self _ _, rfl⟩)
    obtain ⟨s, hs⟩ := joinActive_is_str (pySortJobIds (activeIdsOf g0.2))
    unfold rowCellIsZero at hz
    rw [groupRow_active_jobs, hs] at hz
    simp [cellEqZeroPy] at hz
  · intro clusters
    obtain ⟨s, hs⟩ := joinActive_is_str (pySortJobIds (activeIdsOf clusters))
    exact ⟨s, by rw [rowdata_active_jobs, hs]⟩

/-- C10 witness. -/
theorem job_ids_column_pruning_witness :
    ColKey.ACTIVE_JOBS ∈ (strip_empty_columns (make_rows_from_groups witnessGroups .batch).1).1 :=
  (job_ids_column_pruning witnessGroups .batch).1 (by decide)

/-! ### The grouping is a partition -/

/-- All clusters appearing in a group list. -/
def groupsFlat (gs : List (AttrValue × List Cluster)) : List Cluster :=
  gs.flatMap (fun g => g.2)

theorem addToGroup_flat_perm (k : AttrValue) (c : Cluster) :
    ∀ gs : List (AttrValue × List Cluster),
      (groupsFlat (addToGroup gs k c)).Perm (groupsFlat gs ++ [c]) := by
  intro gs
  induction gs with
  | nil => simp [addToGroup, groupsFlat]
  | cons g rest ih =>
    obtain ⟨k0, l⟩ := g
    by_cases h : k0 = k
    · have hstep : addToGroup ((k0, l) :: rest) k c = (k0, l ++ [c]) :: rest := by
        simp [addToGroup, h]
      rw [hstep]
      simp only [groupsFlat, List.flatMap_cons] at *
      have h1 : (l ++ [c]) ++ rest.flatMap (fun g => g.2)
          = l ++ ([c] ++ rest.flatMap (fun g => g.2)) := by simp
      have h2 : (l ++ rest.flatMap (fun g => g.2)) ++ [c]
          = l ++ (rest.flatMap (fun g => g.2) ++ [c]) := by simp
      rw [h1, h2]
      exact List.Perm.append_left l List.perm_append_comm
    · have hstep : addToGroup ((k0, l) :: rest) k c = (k0, l) :: addToGroup rest k c := by
        simp [addToGroup, h]
      rw [hstep]
      simp only [groupsFlat, List.flatMap_cons] at *
      have h2 : (l ++ rest.flatMap (fun g => g.2)) ++ [c]
          = l ++ (rest.flatMap (fun g => g.2) ++ [c]) := by simp
      rw [h2]
      exact ih.append_left l

theorem group_clusters_flat_perm (clusters : List Cluster) (key : GroupKey) :
    (groupsFlat (group_clusters_by_key clusters key)).Perm clusters := by
  suffices h : ∀ gs : List (AttrValue × List Cluster),
      (groupsFlat (clusters.foldl (fun acc c => addToGroup acc (getAttr key c) c) gs)).Perm
        (groupsFlat gs ++ clusters) by
    simpa [groupsFlat] using h []
  induction clusters with
  | nil => intro gs; simp
  | cons c cs ih =>
    intro gs
    simp only [List.foldl_cons]
    have h1 := ih (addToGroup gs (getAttr key c) c)
    have h2 := (addToGroup_flat_perm (getAttr key c) c gs).append_right cs
    have h3 : (groupsFlat gs ++ [c]) ++ cs = groupsFlat gs ++ (c :: cs) := by simp
    rw [h3] at h2
    exact h1.trans h2

theorem addToGroup_ne_nil (k : AttrValue) (c : Cluster) :
    ∀ gs : List (AttrValue × List Cluster),
      (∀ g ∈ gs, g.2 ≠ []) → ∀ g ∈ addToGroup gs k c, g.2 ≠ [] := by
  intro gs
  induction gs with
  | nil =>
    intro _ g hg
    simp only [addToGroup] at hg
    rcases List.mem_singleton.mp hg with rfl
    simp
  | cons g0 rest ih =>
    obtain ⟨k0, l⟩ := g0
    intro hold g hg
    by_cases h : k0 = k
    · have hstep : addToGroup ((k0, l) :: rest) k c = (k0, l ++ [c]) :: rest := by
        simp [addToGroup, h]
      rw [hstep] at hg
      rcases List.mem_cons.mp hg with rfl | hmem
      · simp
      · exact hold g (List.mem_cons_of_mem _ hmem)
    · have hstep : addToGroup ((k0, l) :: rest) k c = (k0, l) :: addToGroup rest k c := by
        simp [addToGroup, h]
      rw [hstep] at hg
      rcases List.mem_cons.mp hg with rfl | hmem
      · exact hold _ (List.mem_cons_self _ _)
      · exact ih (fun g2 hg2 => hold g2 (List.mem_cons_of_mem _ hg2)) g hmem

theorem group_entries_ne_nil (clusters : List Cluster) (key : GroupKey) :
    ∀ g ∈ group_clusters_by_key clusters key, g.2 ≠ [] := by
  suffices h : ∀ gs : List (AttrValue × List Cluster), (∀ g ∈ gs, g.2 ≠ []) →
      ∀ g ∈ clusters.foldl (fun acc c => addToGroup acc (getAttr key c) c) gs, g.2 ≠ [] by
    exact h [] (by simp)
  induction clusters with
  | nil => intro gs hgs; simpa using hgs
  | cons c cs ih =>
    intro gs hgs
    simp only [List.foldl_cons]
    exact ih _ (addToGroup_ne_nil (getAttr key c) c gs hgs)

theorem minClusterId_mem (l : List Cluster) (h : l ≠ []) :
    minClusterId l ∈ l.map Cluster.cluster_id := by
  unfold minClusterId
  cases hm : (l.map Cluster.cluster_id).min? with
  | none =>
    exfalso
    rw [List.min?_eq_none_iff] at hm
    exact h (by simpa using hm)
  | some m =>
    exact List.min?_mem (fun a b => min_choice a b) hm

theorem group_minIds_nodup (clusters : List Cluster) (key : GroupKey)
    (hnd : (clusters.map Cluster.cluster_id).Nodup) :
    ((group_clusters_by_key clusters key).map (fun g => minClusterId g.2)).Nodup := by
  have hperm : (groupsFlat (group_clusters_by_key clusters key)).Perm clusters :=
    group_clusters_flat_perm clusters key
  have hndflat : ((groupsFlat (group_clusters_by_key clusters key)).map Cluster.cluster_id).Nodup :=
    ((hperm.map Cluster.cluster_id).nodup_iff).mpr hnd
  have hflatten : (groupsFlat (group_clusters_by_key clusters key)).map Cluster.cluster_id
      = ((group_clusters_by_key clusters key).map
          (fun g => g.2.map Cluster.cluster_id)).flatten := by
    simp only [groupsFlat, List.flatMap_def, List.map_flatten, List.map_map]
    rfl
  rw [hflatten] at hndflat
  have hsplit := List.nodup_flatten.mp hndflat
  have hpw : List.Pairwise
      (fun g1 g2 : AttrValue × List Cluster =>
        (g1.2.map Cluster.cluster_id).Disjoint (g2.2.map Cluster.cluster_id))
      (group_clusters_by_key clusters key) := (List.pairwise_map).mp hsplit.2
  unfold List.Nodup
  rw [List.pairwise_map]
  refine hpw.imp_of_mem ?_
  intro g1 g2 h1mem h2mem hdisj heq
  have hne1 : g1.2 ≠ [] := group_entries_ne_nil clusters key g1 h1mem
  have hne2 : g2.2 ≠ [] := group_entries_ne_nil clusters key g2 h2mem
  have hm1 := minClusterId_mem g1.2 hne1
  have hm2 := minClusterId_mem g2.2 hne2
  rw [heq] at hm1
  exact hdisj hm1 hm2

/-! ### Claim C5 -/

/-- C5: the final row ordering sorts groups ascending by the minimum
cluster id present in each group; when the tracked cluster ids are
distinct (they are dict keys), any two displayed groups are strictly
ordered, the one containing the smaller minimum cluster id first. -/
theorem rows_sorted_by_min_cluster_id (clusters : List Cluster) (key : GroupKey)
    (hnd : (clusters.map Cluster.cluster_id).Nodup) :
    (sort_rows_by_min_cluster (group_clusters_by_key clusters key)).Perm
      (group_clusters_by_key clusters key) ∧
    (∀ i j : Fin (sort_rows_by_min_cluster (group_clusters_by_key clusters key)).length,
      (i : Nat) < (j : Nat) →
      minClusterId ((sort_rows_by_min_cluster (group_clusters_by_key clusters key)).get i).2
        < minClusterId
            ((sort_rows_by_min_cluster (group_clusters_by_key clusters key)).get j).2) := by
  have hperm : (sort_rows_by_min_cluster (group_clusters_by_key clusters key)).Perm
      (group_clusters_by_key clusters key) := List.perm_insertionSort rowOrder _
  refine ⟨hperm, ?_⟩
  have hsorted : (sort_rows_by_min_cluster (group_clusters_by_key clusters key)).Pairwise
      rowOrder := List.sorted_insertionSort rowOrder _
  have hnodup : ((sort_rows_by_min_cluster (group_clusters_by_key clusters key)).map
      (fun g => minClusterId g.2)).Nodup :=
    ((hperm.map (fun g => minClusterId g.2)).nodup_iff).mpr (group_minIds_nodup clusters key hnd)
  have hne : (sort_rows_by_min_cluster (group_clusters_by_key clusters key)).Pairwise
      (fun g1 g2 => minClusterId g1.2 ≠ minClusterId g2.2) := by
    unfold List.Nodup at hnodup
    exact (List.pairwise_map).mp hnodup
  intro i j hij
  have h1 := List.pairwise_iff_getElem.mp hsorted i j i.2 j.2 hij
  have h2 := List.pairwise_iff_getElem.mp hne i j i.2 j.2 hij
  have h1le : minClusterId ((sort_rows_by_min_cluster
      (group_clusters_by_key clusters key)).get i).2
        ≤ minClusterId ((sort_rows_by_min_cluster
      (group_clusters_by_key clusters key)).get j).2 := by
    simpa [List.get_eq_getElem, rowOrder] using h1
  have h2ne : minClusterId ((sort_rows_by_min_cluster
      (group_clusters_by_key clusters key)).get i).2
        ≠ minClusterId ((sort_rows_by_min_cluster
      (group_clusters_by_key clusters key)).get j).2 := by
    simpa [List.get_eq_getElem] using h2
  exact lt_of_le_of_ne h1le h2ne

/-- C5 witness: clusters 2 and 10 grouped by cluster id. -/
theorem rows_sorted_by_min_cluster_id_witness :
    (sort_rows_by_min_cluster (group_clusters_by_key cexClusters .cluster)).Perm
      (group_clusters_by_key cexClusters .cluster) :=
  (rows_sorted_by_min_cluster_id cexClusters .cluster (by decide)).1

/-! ### Dict keys -/

/-- The key list of a dict (in insertion order). -/
def dictKeys {α β : Type} [DecidableEq α] (l : List (α × β)) : List α :=
  l.map (fun p => p.1)

theorem dictKeys_dictSet {α β : Type} [DecidableEq α] (k : α) (v : β) :
    ∀ l : List (α × β),
      dictKeys (dictSet k v l)
        = if k ∈ dictKeys l then dictKeys l else dictKeys l ++ [k] := by
  intro l
  induction l with
  | nil => simp [dictSet, dictKeys]
  | cons p rest ih =>
    by_cases h : p.1 = k
    · simp [dictSet, dictKeys, h]
    · have hkp : k ≠ p.1 := fun hh => h hh.symm
      simp only [dictSet, if_neg h, dictKeys, List.map_cons] at *
      rw [ih]
      by_cases hm : k ∈ rest.map (fun p => p.1)
      · simp [hm, hkp]
      · simp [hm, hkp]

theorem dictKeys_dictSet_nodup {α β : Type} [DecidableEq α] (k : α) (v : β)
    (l : List (α × β)) (h : (dictKeys l).Nodup) : (dictKeys (dictSet k v l)).Nodup := by
  rw [dictKeys_dictSet]
  by_cases hm : k ∈ dictKeys l
  · simpa [hm] using h
  · simp only [hm, if_false]
    simp [List.nodup_append, h, hm]

theorem dictGet_eq_none_iff {α β : Type} [DecidableEq α] (k : α) :
    ∀ l : List (α × β), dictGet k l = Option.none ↔ k ∉ dictKeys l := by
  intro l
  induction l with
  | nil => simp [dictGet, dictKeys]
  | cons p rest ih =>
    by_cases h : p.1 = k
    · simp [dictGet, dictKeys, h]
    · have hkp : k ≠ p.1 := fun hh => h hh.symm
      simp [dictGet, dictKeys, h, hkp, ih]

theorem mem_dictKeys_of_dictGet {α β : Type} [DecidableEq α] (k : α)
    (l : List (α × β)) (v : β) (h : dictGet k l = some v) : k ∈ dictKeys l := by
  by_contra hmem
  rw [← dictGet_eq_none_iff k l] at hmem
  rw [h] at hmem
  exact Option.noConfusion hmem

/-! ### The tracked job keys -/

/-- Every (cluster id, proc id) pair present in the cluster dict. -/
def flatJobKeys (m : List (Nat × Cluster)) : List (Nat × Nat) :=
  m.flatMap (fun p => p.2.job_to_state.map (fun q => (p.1, q.1)))

/-- Every (cluster id, proc id) pair the tracker currently holds. -/
def trackerJobKeys (t : JobStateTracker) : List (Nat × Nat) :=
  flatJobKeys t.cluster_id_to_cluster

/-- Well-formedness: distinct cluster ids, distinct job keys. -/
def clusterDictWF (m : List (Nat × Cluster)) : Prop :=
  (dictKeys m).Nodup ∧ (flatJobKeys m).Nodup

theorem mem_flatJobKeys_fst (m : List (Nat × Cluster)) (a b : Nat)
    (h : (a, b) ∈ flatJobKeys m) : a ∈ dictKeys m := by
  simp only [flatJobKeys, List.mem_flatMap] at h
  obtain ⟨p, hp, hq⟩ := h
  obtain ⟨q, hq2, hq3⟩ := List.mem_map.mp hq
  have ha : p.1 = a := congrArg Prod.fst hq3
  exact ha ▸ List.mem_map.mpr ⟨p, hp, rfl⟩

/-- Map q to (cid, key of q): the pair list of one cluster. -/
theorem jobPairs_eq_keys_map (cid : Nat) (l : List (Nat × JobStatus)) :
    l.map (fun q => (cid, q.1)) = (dictKeys l).map (fun x => (cid, x)) := by
  simp [dictKeys, List.map_map]

/-- The update the tracker performs on its cluster dict for one
status-mapped event (setdefault followed by the job-status write). -/
def updateClusterDict (cid pid : Nat) (st : JobStatus) (mk : Cluster)
    (m : List (Nat × Cluster)) : List (Nat × Cluster) :=
  let cluster := match dictGet cid m with | some c => c | none => mk
  dictSet cid { cluster with job_to_state := dictSet pid st cluster.job_to_state } m

theorem updateClusterDict_nil (cid pid : Nat) (st : JobStatus) (mk : Cluster)
    (hmk : mk.job_to_state = []) :
    updateClusterDict cid pid st mk []
      = [(cid, { mk with job_to_state := [(pid, st)] })] := by
  unfold updateClusterDict
  simp [dictGet, dictSet, hmk]

theorem updateClusterDict_cons_eq (cid pid : Nat) (st : JobStatus) (mk : Cluster)
    (p : Nat × Cluster) (rest : List (Nat × Cluster)) (h : p.1 = cid) :
    updateClusterDict cid pid st mk (p :: rest)
      = (cid, { p.2 with job_to_state := dictSet pid st p.2.job_to_state }) :: rest := by
  unfold updateClusterDict
  simp [dictGet, dictSet, h]

theorem updateClusterDict_cons_ne (cid pid : Nat) (st : JobStatus) (mk : Cluster)
    (p : Nat × Cluster) (rest : List (Nat × Cluster)) (h : p.1 ≠ cid) :
    updateClusterDict cid pid st mk (p :: rest)
      = p :: updateClusterDict cid pid st mk rest := by
  unfold updateClusterDict
  simp [dictGet, dictSet, h]

theorem flatJobKeys_update_toFinset (cid pid : Nat) (st : JobStatus) (mk : Cluster)
    (hmk : mk.job_to_state = []) :
    ∀ m : List (Nat × Cluster),
      (flatJobKeys (updateClusterDict cid pid st mk m)).toFinset
        = insert (cid, pid) (flatJobKeys m).toFinset := by
  intro m
  induction m with
  | nil =>
    rw [updateClusterDict_nil cid pid st mk hmk]
    simp [flatJobKeys]
  | cons p rest ih =>
    by_cases h : p.1 = cid
    · rw [updateClusterDict_cons_eq cid pid st mk p rest h]
      simp only [flatJobKeys, List.flatMap_cons, List.toFinset_append]
      rw [jobPairs_eq_keys_map, jobPairs_eq_keys_map, dictKeys_dictSet]
      subst h
      by_cases hm : pid ∈ dictKeys p.2.job_to_state
      · rw [if_pos hm]
        have hin : (p.1, pid) ∈ ((dictKeys p.2.job_to_state).map
            (fun x => (p.1, x))).toFinset := by
          simp only [List.mem_toFinset, List.mem_map]
          exact ⟨pid, hm, rfl⟩
        ext x
        simp only [Finset.mem_union, Finset.mem_insert]
        constructor
        · intro hx; exact Or.inr hx
        · intro hx
          rcases hx with rfl | hx
          · exact Or.inl (by simpa using hin)
          · exact hx
      · rw [if_neg hm]
        rw [List.map_append, List.toFinset_append]
        ext x
        simp only [Finset.mem_union, Finset.mem_insert, List.toFinset_cons,
          List.map_cons, List.map_nil, List.toFinset_nil]
        constructor
        · intro hx
          rcases hx with (hx | hx) | hx
          · exact Or.inr (Or.inl hx)
          · exact Or.inl (by simpa using hx)
          · exact Or.inr (Or.inr hx)
        · intro hx
          rcases hx with rfl | hx | hx
          · exact Or.inl (Or.inr (by simp))
          · exact Or.inl (Or.inl hx)
          · exact Or.inr hx
    · rw [updateClusterDict_cons_ne cid pid st mk p rest h]
      simp only [flatJobKeys, List.flatMap_cons, List.toFinset_append] at *
      rw [ih]
      exact Finset.union_insert _ _ _

theorem pairSnd_injective (cid : Nat) : Function.Injective (fun x : Nat => (cid, x)) := by
  intro x y hxy
  simpa using congrArg Prod.snd hxy

theorem dictKeys_updateClusterDict (cid pid : Nat) (st : JobStatus) (mk : Cluster)
    (m : List (Nat × Cluster)) :
    dictKeys (updateClusterDict cid pid st mk m)
      = if cid ∈ dictKeys m then dictKeys m else dictKeys m ++ [cid] :=
  dictKeys_dictSet cid _ m

theorem clusterDictWF_update (cid pid : Nat) (st : JobStatus) (mk : Cluster)
    (hmk : mk.job_to_state = []) :
    ∀ m : List (Nat × Cluster), clusterDictWF m →
      clusterDictWF (updateClusterDict cid pid st mk m) := by
  intro m
  induction m with
  | nil =>
    intro _
    rw [updateClusterDict_nil cid pid st mk hmk]
    constructor <;> simp [dictKeys, flatJobKeys]
  | cons p rest ih =>
    intro hwf
    have houter : (p.1 :: dictKeys rest).Nodup := hwf.1
    have hflat : (p.2.job_to_state.map (fun q => (p.1, q.1)) ++ flatJobKeys rest).Nodup :=
      hwf.2
    obtain ⟨hphead, houter_tail⟩ := List.nodup_cons.mp houter
    obtain ⟨hFp, hflat_tail, hdisj⟩ := List.nodup_append.mp hflat
    by_cases h : p.1 = cid
    · rw [updateClusterDict_cons_eq cid pid st mk p rest h]
      subst h
      constructor
      · exact houter
      · show ((dictSet pid st p.2.job_to_state).map (fun q => (p.1, q.1))
            ++ flatJobKeys rest).Nodup
        have hkeysnd : (dictKeys p.2.job_to_state).Nodup := by
          rw [jobPairs_eq_keys_map] at hFp
          exact hFp.of_map
        rw [List.nodup_append]
        refine ⟨?_, hflat_tail, ?_⟩
        · rw [jobPairs_eq_keys_map]
          exact (dictKeys_dictSet_nodup pid st _ hkeysnd).map (pairSnd_injective p.1)
        · intro x hx hx2
          rw [jobPairs_eq_keys_map] at hx
          obtain ⟨y, hy, rfl⟩ := List.mem_map.mp hx
          rw [dictKeys_dictSet] at hy
          by_cases hm : pid ∈ dictKeys p.2.job_to_state
          · rw [if_pos hm] at hy
            exact hdisj (by
              rw [jobPairs_eq_keys_map]
              exact List.mem_map.mpr ⟨y, hy, rfl⟩) hx2
          · rw [if_neg hm] at hy
            rcases List.mem_append.mp hy with hy2 | hy2
            · exact hdisj (by
                rw [jobPairs_eq_keys_map]
                exact List.mem_map.mpr ⟨y, hy2, rfl⟩) hx2
            · have hypid : y = pid := by simpa using hy2
              subst hypid
              exact hphead (mem_flatJobKeys_fst rest p.1 y hx2)
    · rw [updateClusterDict_cons_ne cid pid st mk p rest h]
      have hwfrest := ih ⟨houter_tail, hflat_tail⟩
      constructor
      · show (p.1 :: dictKeys (updateClusterDict cid pid st mk rest)).Nodup
        rw [List.nodup_cons]
        refine ⟨?_, hwfrest.1⟩
        rw [dictKeys_updateClusterDict]
        by_cases hm : cid ∈ dictKeys rest
        · rw [if_pos hm]; exact hphead
        · rw [if_neg hm]
          intro hmem
          rcases List.mem_append.mp hmem with hmem2 | hmem2
          · exact hphead hmem2
          · exact h (by simpa using hmem2)
      · show (p.2.job_to_state.map (fun q => (p.1, q.1))
            ++ flatJobKeys (updateClusterDict cid pid st mk rest)).Nodup
        rw [List.nodup_append]
        refine ⟨hFp, hwfrest.2, ?_⟩
        intro x hx hx2
        obtain ⟨q, hq, rfl⟩ := List.mem_map.mp hx
        have hx3 : (p.1, q.1) ∈
            (flatJobKeys (updateClusterDict cid pid st mk rest)).toFinset :=
          List.mem_toFinset.mpr hx2
        rw [flatJobKeys_update_toFinset cid pid st mk hmk rest] at hx3
        rcases Finset.mem_insert.mp hx3 with heq | hin
        · exact h (congrArg Prod.fst heq)
        · exact hdisj (List.mem_map.mpr ⟨q, hq, rfl⟩) (List.mem_toFinset.mp hin)

/-! ### Event- and log-level key accounting -/

/-- The (cluster, proc) pairs of status-mapped events, in order. -/
def mappedPairsOf (events : List LifecycleEvent) : List (Nat × Nat) :=
  (events.filter (fun e => (JOB_EVENT_STATUS_TRANSITIONS e.type).isSome)).map
    (fun e => (e.cluster, e.proc))

theorem processEvent_dict_eq (event_log_path : String) (t : JobStateTracker)
    (e : LifecycleEvent) (st : JobStatus)
    (h : JOB_EVENT_STATUS_TRANSITIONS e.type = some st) :
    (processEvent event_log_path t e).cluster_id_to_cluster
      = updateClusterDict e.cluster e.proc st
          { cluster_id := e.cluster, event_log_path := event_log_path,
            batch_name_attr := (dictGet e.cluster t.batch_names).join, job_to_state := [] }
          t.cluster_id_to_cluster := by
  unfold processEvent updateClusterDict
  rw [h]

theorem processEvent_keys (event_log_path : String) (t : JobStateTracker)
    (e : LifecycleEvent) (hwf : clusterDictWF t.cluster_id_to_cluster) :
    clusterDictWF (processEvent event_log_path t e).cluster_id_to_cluster ∧
    (trackerJobKeys (processEvent event_log_path t e)).toFinset
      = (trackerJobKeys t).toFinset ∪ (mappedPairsOf [e]).toFinset := by
  cases hst : JOB_EVENT_STATUS_TRANSITIONS e.type with
  | none =>
    have heq : processEvent event_log_path t e = t := by
      unfold processEvent
      rw [hst]
    rw [heq]
    refine ⟨hwf, ?_⟩
    simp [mappedPairsOf, List.filter_cons, hst]
  | some st =>
    have hdict := processEvent_dict_eq event_log_path t e st hst
    constructor
    · show clusterDictWF (processEvent event_log_path t e).cluster_id_to_cluster
      rw [hdict]
      exact clusterDictWF_update e.cluster e.proc st _ rfl _ hwf
    · show (flatJobKeys (processEvent event_log_path t e).cluster_id_to_cluster).toFinset = _
      rw [hdict, flatJobKeys_update_toFinset _ _ _ _ rfl]
      have hm : mappedPairsOf [e] = [(e.cluster, e.proc)] := by
        simp [mappedPairsOf, List.filter_cons, hst]
      rw [hm]
      ext x
      simp only [Finset.mem_insert, Finset.mem_union, List.toFinset_cons,
        List.toFinset_nil, insert_emptyc_eq, Finset.mem_singleton]
      tauto

theorem mappedPairsOf_cons (e : LifecycleEvent) (rest : List LifecycleEvent) :
    mappedPairsOf (e :: rest) = mappedPairsOf [e] ++ mappedPairsOf rest := by
  unfold mappedPairsOf
  cases hst : (JOB_EVENT_STATUS_TRANSITIONS e.type).isSome <;>
    simp [List.filter_cons, hst]

theorem processLog_keys (event_log_path : String) :
    ∀ (events : List LifecycleEvent) (t : JobStateTracker),
      clusterDictWF t.cluster_id_to_cluster →
      clusterDictWF (processLog t event_log_path events).cluster_id_to_cluster ∧
      (trackerJobKeys (processLog t event_log_path events)).toFinset
        = (trackerJobKeys t).toFinset ∪ (mappedPairsOf events).toFinset := by
  intro events
  induction events with
  | nil =>
    intro t h
    refine ⟨h, ?_⟩
    simp [processLog, mappedPairsOf]
  | cons e rest ih =>
    intro t h
    have hstep : processLog t event_log_path (e :: rest)
        = processLog (processEvent event_log_path t e) event_log_path rest := by
      simp [processLog]
    have h1 := processEvent_keys event_log_path t e h
    have h2 := ih (processEvent event_log_path t e) h1.1
    rw [hstep]
    refine ⟨h2.1, ?_⟩
    rw [h2.2, h1.2, mappedPairsOf_cons e rest, List.toFinset_append, Finset.union_assoc]

/-! ### Claim C1 -/

theorem numJobs_eq_flatJobKeys_length (m : List (Nat × Cluster)) :
    numJobs (m.map (fun p => p.2)) = (flatJobKeys m).length := by
  induction m with
  | nil => simp [numJobs, flatJobKeys]
  | cons p rest ih =>
    simp only [numJobs, flatJobKeys, List.flatMap_cons, List.map_cons,
      List.sum_cons, List.length_append, List.length_map] at *
    omega

theorem numJobs_append (l1 l2 : List Cluster) :
    numJobs (l1 ++ l2) = numJobs l1 + numJobs l2 := by
  simp [numJobs]

theorem numJobs_groupsFlat (gs : List (AttrValue × List Cluster)) :
    numJobs (groupsFlat gs) = (gs.map (fun g => numJobs g.2)).sum := by
  induction gs with
  | nil => simp [numJobs, groupsFlat]
  | cons g rest ih =>
    simp only [groupsFlat, List.flatMap_cons, List.map_cons, List.sum_cons] at *
    rw [numJobs_append, ih]

theorem numJobs_perm {l1 l2 : List Cluster} (h : l1.Perm l2) : numJobs l1 = numJobs l2 := by
  unfold numJobs
  exact (h.map (fun c => c.job_to_state.length)).sum_eq

/-- The tracker after a fresh construction with batch-name hints bn has
drained one event source via process_events. -/
def trackerAfter (bn : List (Nat × Option String)) (event_log_path : String)
    (events : List LifecycleEvent) : JobStateTracker :=
  process_events (freshTracker bn) [(event_log_path, events)]

/-- The Totals the aggregation pipeline computes from that tracker. -/
def totalsAfter (bn : List (Nat × Option String)) (event_log_path : String)
    (events : List LifecycleEvent) (key : GroupKey) : Totals :=
  (make_rows_from_groups
    (group_clusters_by_key (trackerAfter bn event_log_path events).clusters key) key).2

theorem totalsAfter_total_card (bn : List (Nat × Option String)) (event_log_path : String)
    (events : List LifecycleEvent) (key : GroupKey) :
    (totalsAfter bn event_log_path events key).total
      = (mappedPairsOf events).toFinset.card := by
  have hwf0 : clusterDictWF (freshTracker bn).cluster_id_to_cluster := by
    constructor <;> simp [freshTracker, dictKeys, flatJobKeys]
  have hkeys := processLog_keys event_log_path events (freshTracker bn) hwf0
  have hfin : (trackerJobKeys (processLog (freshTracker bn) event_log_path events)).toFinset
      = (mappedPairsOf events).toFinset := by
    rw [hkeys.2]
    simp [trackerJobKeys, flatJobKeys, freshTracker]
  unfold totalsAfter
  rw [make_rows_from_groups_eq]
  show (totalsOfGroups _).total = _
  rw [totalsOfGroups_total, ← numJobs_groupsFlat,
    numJobs_perm (group_clusters_flat_perm _ key)]
  have hnum : numJobs (trackerAfter bn event_log_path events).clusters
      = (trackerJobKeys (processLog (freshTracker bn) event_log_path events)).length :=
    numJobs_eq_flatJobKeys_length _
  have hnodup : (trackerJobKeys (processLog (freshTracker bn) event_log_path events)).Nodup :=
    hkeys.1.2
  rw [hnum, ← List.toFinset_card_of_nodup hnodup, hfin]

theorem sumCounts_add (f g : JobStatus → Nat) :
    sumCounts (fun js => f js + g js) = sumCounts f + sumCounts g := by
  simp [sumCounts, JobStatus.declOrder]
  omega

theorem sumCounts_groups (groups : List (AttrValue × List Cluster)) :
    sumCounts (fun js => (groups.map (fun g => countStatus js g.2)).sum)
      = (groups.map (fun g => numJobs g.2)).sum := by
  induction groups with
  | nil => simp [sumCounts, JobStatus.declOrder]
  | cons g gs ih =>
    have hpt : (fun js => (((g :: gs).map (fun g2 => countStatus js g2.2)).sum : Nat))
        = fun js => countStatus js g.2 + (gs.map (fun g2 => countStatus js g2.2)).sum := by
      funext js
      simp
    rw [hpt, sumCounts_add, sumCounts_countStatus, ih]
    simp

theorem totalsAfter_sum (bn : List (Nat × Option String)) (event_log_path : String)
    (events : List LifecycleEvent) (key : GroupKey) :
    sumCounts (fun js => (totalsAfter bn event_log_path events key).counts js)
      = (totalsAfter bn event_log_path events key).total := by
  unfold totalsAfter
  rw [make_rows_from_groups_eq]
  show sumCounts (fun js => (totalsOfGroups _).counts js) = (totalsOfGroups _).total
  have hpt : (fun js => (totalsOfGroups (group_clusters_by_key
        (trackerAfter bn event_log_path events).clusters key)).counts js)
      = fun js => ((group_clusters_by_key (trackerAfter bn event_log_path events).clusters
          key).map (fun g => countStatus js g.2)).sum :=
    funext (fun js => totalsOfGroups_counts _ js)
  rw [hpt, sumCounts_groups, totalsOfGroups_total]

theorem mappedPairsOf_append (l1 l2 : List LifecycleEvent) :
    mappedPairsOf (l1 ++ l2) = mappedPairsOf l1 ++ mappedPairsOf l2 := by
  simp [mappedPairsOf]

/-- C1: Totals[TOTAL] equals the sum of the per-status counts, equals
the number of distinct (cluster id, proc id) pairs referenced by
status-mapped events, is invariant under any permutation of the event
sequence (in particular under reordering events of distinct jobs) and
under the choice of group key, and never decreases when further events
are processed. -/
theorem totals_total_invariant (bn : List (Nat × Option String)) (event_log_path : String)
    (events events2 more : List LifecycleEvent) (key key2 : GroupKey)
    (hperm : events.Perm events2) :
    (totalsAfter bn event_log_path events key).total
      = sumCounts (fun js => (totalsAfter bn event_log_path events key).counts js) ∧
    (totalsAfter bn event_log_path events key).total
      = (mappedPairsOf events).toFinset.card ∧
    (totalsAfter bn event_log_path events key).total
      = (totalsAfter bn event_log_path events2 key2).total ∧
    (totalsAfter bn event_log_path events key).total
      ≤ (totalsAfter bn event_log_path (events ++ more) key).total := by
  refine ⟨(totalsAfter_sum bn event_log_path events key).symm,
    totalsAfter_total_card bn event_log_path events key, ?_, ?_⟩
  · rw [totalsAfter_total_card bn event_log_path events key,
      totalsAfter_total_card bn event_log_path events2 key2]
    have hp : (mappedPairsOf events).Perm (mappedPairsOf events2) :=
      (hperm.filter _).map _
    rw [List.toFinset_eq_of_perm _ _ hp]
  · rw [totalsAfter_total_card bn event_log_path events key,
      totalsAfter_total_card bn event_log_path (events ++ more) key]
    apply Finset.card_le_card
    rw [mappedPairsOf_append, List.toFinset_append]
    exact Finset.subset_union_left

/-- The spec scenario: three submits, one execute, one hold. -/
def scenarioEvents : List LifecycleEvent :=
  [{ cluster := 1, proc := 0, type := .SUBMIT },
   { cluster := 1, proc := 1, type := .SUBMIT },
   { cluster := 1, proc := 2, type := .SUBMIT },
   { cluster := 1, proc := 0, type := .EXECUTE },
   { cluster := 1, proc := 1, type := .JOB_HELD }]

/-- C1 witness: five events addressing three distinct jobs give
Totals[TOTAL] = 3. -/
theorem totals_total_invariant_witness :
    (totalsAfter [] "job.log" scenarioEvents .batch).total
      = (mappedPairsOf scenarioEvents).toFinset.card ∧
    (mappedPairsOf scenarioEvents).toFinset.card = 3 :=
  ⟨(totals_total_invariant [] "job.log" scenarioEvents scenarioEvents [] .batch .batch
      (List.Perm.refl scenarioEvents)).2.1,
   by decide⟩

end CondorWatchQ
